import Mathlib

/-!
Verification of the Grippy PR-review pipeline (src/src/grippy) against its
natural-language specification.  Python strings are embedded as `List Char`,
machine integers as `Nat`/`Int`, and fallible code as `Except`/`Option`.
All definitions are translated from the Python source; claim-side
specification predicates are named with a `spec` prefix where they exist.
-/

/-! ## Python string primitives -/

/-- Characters of a Lean string literal, used to embed Python string literals. -/
def pstr (s : String) : List Char := s.data

/-- Python `str.startswith`, on the character-list embedding. -/
def startsWithL : List Char → List Char → Bool
  | [], _ => true
  | _ :: _, [] => false
  | p :: ps, c :: cs => p == c && startsWithL ps cs

/-- The character set stripped by Python `str.strip()` (the `str.isspace` set). -/
def isPySpace (c : Char) : Bool :=
  let n := c.toNat
  decide ((9 ≤ n ∧ n ≤ 13) ∨ n = 32 ∨ (28 ≤ n ∧ n ≤ 31) ∨ n = 0x85 ∨ n = 0xa0 ∨
    n = 0x1680 ∨ (0x2000 ≤ n ∧ n ≤ 0x200a) ∨ n = 0x2028 ∨ n = 0x2029 ∨
    n = 0x202f ∨ n = 0x205f ∨ n = 0x3000)

/-- Python `str.strip()` with no arguments: drop leading and trailing whitespace. -/
def pyStrip (s : List Char) : List Char :=
  ((s.dropWhile isPySpace).reverse.dropWhile isPySpace).reverse

/-- Python `str.lower()`, restricted to the ASCII case mapping (the
findings exercised by the spec's invariants use ASCII titles; the mapping
being a per-character function is all the fingerprint claims rely on). -/
def pyLowerChar (c : Char) : Char :=
  if 65 ≤ c.toNat ∧ c.toNat ≤ 90 then Char.ofNat (c.toNat + 32) else c

/-- Python `str.lower()` on the character-list embedding. -/
def pyLower (s : List Char) : List Char := s.map pyLowerChar

/-- Python `str.encode()`: UTF-8 bytes of a string, as natural numbers. -/
def utf8Char (c : Char) : List Nat :=
  let n := c.toNat
  if n < 0x80 then [n]
  else if n < 0x800 then [0xC0 ||| (n >>> 6), 0x80 ||| (n &&& 0x3F)]
  else if n < 0x10000 then
    [0xE0 ||| (n >>> 12), 0x80 ||| ((n >>> 6) &&& 0x3F), 0x80 ||| (n &&& 0x3F)]
  else
    [0xF0 ||| (n >>> 18), 0x80 ||| ((n >>> 12) &&& 0x3F),
     0x80 ||| ((n >>> 6) &&& 0x3F), 0x80 ||| (n &&& 0x3F)]

/-- UTF-8 encoding of a whole string. -/
def encodeUtf8 (s : List Char) : List Nat := (s.map utf8Char).flatten

/-! ## SHA-256 (`hashlib.sha256`), FIPS 180-4 over byte lists -/

/-- Truncation to a 32-bit word. -/
def w32 (x : Nat) : Nat := x % 4294967296

/-- 32-bit right rotation. -/
def rotr32 (n x : Nat) : Nat := w32 ((x >>> n) ||| (x <<< (32 - n)))

def shaCh (x y z : Nat) : Nat := (x &&& y) ^^^ ((x ^^^ 4294967295) &&& z)

def shaMaj (x y z : Nat) : Nat := (x &&& y) ^^^ (x &&& z) ^^^ (y &&& z)

def shaS0 (x : Nat) : Nat := rotr32 2 x ^^^ rotr32 13 x ^^^ rotr32 22 x

def shaS1 (x : Nat) : Nat := rotr32 6 x ^^^ rotr32 11 x ^^^ rotr32 25 x

def shas0 (x : Nat) : Nat := rotr32 7 x ^^^ rotr32 18 x ^^^ (x >>> 3)

def shas1 (x : Nat) : Nat := rotr32 17 x ^^^ rotr32 19 x ^^^ (x >>> 10)

/-- The 64 SHA-256 round constants. -/
def shaK : List Nat :=
  [0x428a2f98, 0x71374491, 3049323471, 0xe9b5dba5, 0x3956c25b, 0x59f111f1,
   0x923f82a4, 0xab1c5ed5, 3624381080, 0x12835b01, 0x243185be, 0x550c7dc3,
   0x72be5d74, 0x80deb1fe, 2614888103, 0xc19bf174, 0xe49b69c1, 0xefbe4786,
   0x0fc19dc6, 0x240ca1cc, 770255983, 0x4a7484aa, 0x5cb0a9dc, 0x76f988da,
   0x983e5152, 0xa831c66d, 2952996808, 0xbf597fc7, 0xc6e00bf3, 0xd5a79147,
   0x06ca6351, 0x14292967, 666307205, 0x2e1b2138, 0x4d2c6dfc, 0x53380d13,
   0x650a7354, 0x766a0abb, 2177026350, 0x92722c85, 0xa2bfe8a1, 0xa81a664b,
   0xc24b8b70, 0xc76c51a3, 3516065817, 0xd6990624, 0xf40e3585, 0x106aa070,
   0x19a4c116, 0x1e376c08, 659060556, 0x34b0bcb5, 0x391c0cb3, 0x4ed8aa4a,
   0x5b9cca4f, 0x682e6ff3, 1955562222, 0x78a5636f, 0x84c87814, 0x8cc70208,
   0x90befffa, 0xa4506ceb, 3204031479, 0xc67178f2]

/-- Big-endian byte expansion of a natural number into `k` bytes. -/
def natToBytesBE : Nat → Nat → List Nat
  | 0, _ => []
  | k + 1, n => natToBytesBE k (n >>> 8) ++ [n &&& 255]

/-- SHA-256 padding: 0x80, zeros to 56 mod 64, then the 64-bit bit length. -/
def shaPad (msg : List Nat) : List Nat :=
  let l := msg.length
  msg ++ [0x80] ++ List.replicate ((119 - l % 64) % 64) 0 ++ natToBytesBE 8 (8 * l)

/-- Group a byte list into big-endian 32-bit words. -/
def bytesToWordsBE : List Nat → List Nat
  | a :: b :: c :: d :: rest =>
      ((a <<< 24) ||| (b <<< 16) ||| (c <<< 8) ||| d) :: bytesToWordsBE rest
  | _ => []

/-- Split a list into chunks of 64 elements (fuel-based structural recursion,
so that the kernel can evaluate it; the fuel `l.length` always suffices). -/
def chunksAux : Nat → List Nat → List (List Nat)
  | 0, _ => []
  | _, [] => []
  | fuel + 1, x :: xs => (x :: xs).take 64 :: chunksAux fuel ((x :: xs).drop 64)

/-- Split a list into chunks of 64 elements. -/
def chunks64 (l : List Nat) : List (List Nat) := chunksAux l.length l

/-- One message-schedule extension step: append W[t] for t = current length. -/
def schedStep (w : List Nat) : List Nat :=
  w ++ [w32 (shas1 (w.getD (w.length - 2) 0) + w.getD (w.length - 7) 0 +
             shas0 (w.getD (w.length - 15) 0) + w.getD (w.length - 16) 0)]

/-- Iterate a function n times. -/
def iterApp (n : Nat) (f : α → α) (x : α) : α :=
  match n with
  | 0 => x
  | k + 1 => iterApp k f (f x)

/-- The eight working variables of the compression function. -/
structure Hash8 where
  a : Nat
  b : Nat
  c : Nat
  d : Nat
  e : Nat
  f : Nat
  g : Nat
  h : Nat

/-- The SHA-256 initial hash value. -/
def shaH0 : Hash8 :=
  ⟨0x6a09e667, 0xbb67ae85, 1013904242, 0xa54ff53a,
   0x510e527f, 2600822924, 0x1f83d9ab, 0x5be0cd19⟩

/-- One compression round with constant k and schedule word w. -/
def shaRound (st : Hash8) (kw : Nat × Nat) : Hash8 :=
  let t1 := w32 (st.h + shaS1 st.e + shaCh st.e st.f st.g + kw.1 + kw.2)
  let t2 := w32 (shaS0 st.a + shaMaj st.a st.b st.c)
  ⟨w32 (t1 + t2), st.a, st.b, st.c, w32 (st.d + t1), st.e, st.f, st.g⟩

/-- Process one 64-byte block. -/
def shaBlock (h : Hash8) (block : List Nat) : Hash8 :=
  let w := iterApp 48 schedStep (bytesToWordsBE block)
  let st := (shaK.zip w).foldl shaRound h
  ⟨w32 (h.a + st.a), w32 (h.b + st.b), w32 (h.c + st.c), w32 (h.d + st.d),
   w32 (h.e + st.e), w32 (h.f + st.f), w32 (h.g + st.g), w32 (h.h + st.h)⟩

/-- SHA-256 digest of a byte list, as 32 bytes. -/
def sha256Bytes (msg : List Nat) : List Nat :=
  let hf := (chunks64 (shaPad msg)).foldl shaBlock shaH0
  natToBytesBE 4 hf.a ++ natToBytesBE 4 hf.b ++ natToBytesBE 4 hf.c ++
  natToBytesBE 4 hf.d ++ natToBytesBE 4 hf.e ++ natToBytesBE 4 hf.f ++
  natToBytesBE 4 hf.g ++ natToBytesBE 4 hf.h

/-- Lower-case hex digit. -/
def hexChar (n : Nat) : Char :=
  if n < 10 then Char.ofNat (48 + n) else Char.ofNat (87 + n)

/-- Two-digit hex of one byte. -/
def byteHex (b : Nat) : List Char := [hexChar (b / 16), hexChar (b % 16)]

/-- `hashlib.sha256(x).hexdigest()`: the 64-character hex digest. -/
def sha256Hex (msg : List Nat) : List Char := ((sha256Bytes msg).map byteHex).flatten

/-! ## Review schema (src/src/grippy/schema.py) -/

/-- schema.py `Severity` (StrEnum). -/
inductive Severity where
  | critical
  | high
  | medium
  | low
deriving DecidableEq

/-- The StrEnum value of a severity. -/
def Severity.value : Severity → List Char
  | .critical => pstr "CRITICAL"
  | .high => pstr "HIGH"
  | .medium => pstr "MEDIUM"
  | .low => pstr "LOW"

/-- schema.py `FindingCategory` (StrEnum). -/
inductive FindingCategory where
  | security
  | logic
  | governance
  | reliability
  | observability
deriving DecidableEq

/-- The StrEnum value of a finding category. -/
def FindingCategory.value : FindingCategory → List Char
  | .security => pstr "security"
  | .logic => pstr "logic"
  | .governance => pstr "governance"
  | .reliability => pstr "reliability"
  | .observability => pstr "observability"

/-- schema.py `Finding` (pydantic model, `model_config = frozen`). -/
structure Finding where
  id : List Char
  severity : Severity
  confidence : Nat
  category : FindingCategory
  file : List Char
  line_start : Int
  line_end : Int
  title : List Char
  description : List Char
  suggestion : List Char
  governance_rule_id : Option (List Char)
  evidence : List Char
  grippy_note : List Char
deriving DecidableEq

/-- The key string hashed by `Finding.fingerprint`:
`f-string {self.file.strip()}:{self.category.value}:{self.title.strip().lower()}`. -/
def fingerprintKey (f : Finding) : List Char :=
  pyStrip f.file ++ pstr ":" ++ f.category.value ++ pstr ":" ++ pyLower (pyStrip f.title)

/-- schema.py `Finding.fingerprint`:
`hashlib.sha256(key.encode()).hexdigest()[:12]`. -/
def Finding.fingerprint (f : Finding) : List Char :=
  (sha256Hex (encodeUtf8 (fingerprintKey f))).take 12

/-- schema.py `ComplexityTier` (StrEnum). -/
inductive ComplexityTier where
  | trivialTier
  | standard
  | complexTier
  | critical
deriving DecidableEq

/-- schema.py `PRMetadata`. -/
structure PRMetadata where
  title : List Char
  author : List Char
  branch : List Char
  complexity_tier : ComplexityTier
deriving DecidableEq

/-- schema.py `ReviewScope` (the coverage percentage is a Python float; it is
carried opaquely as its decimal numerator over 100 and is used by no claim). -/
structure ReviewScope where
  files_in_diff : Int
  files_reviewed : Int
  coverage_percentage : Int
  governance_rules_applied : List (List Char)
  modes_active : List (List Char)
deriving DecidableEq

/-- schema.py `EscalationCategory` (StrEnum). -/
inductive EscalationCategory where
  | security
  | compliance
  | architecture
  | pattern
  | domain
deriving DecidableEq

/-- schema.py `EscalationTarget` (StrEnum). -/
inductive EscalationTarget where
  | security_team
  | infrastructure
  | domain_expert
  | tech_lead
  | compliance
deriving DecidableEq

/-- schema.py `Escalation.severity` literal type. -/
inductive EscalationSeverity where
  | critical
  | high
  | medium
deriving DecidableEq

/-- schema.py `Escalation`. -/
structure Escalation where
  id : List Char
  severity : EscalationSeverity
  category : EscalationCategory
  summary : List Char
  details : List Char
  recommended_target : EscalationTarget
  blocking : Bool
deriving DecidableEq

/-- schema.py `ScoreBreakdown`. -/
structure ScoreBreakdown where
  security : Nat
  logic : Nat
  governance : Nat
  reliability : Nat
  observability : Nat
deriving DecidableEq

/-- schema.py `ScoreDeductions`. -/
structure ScoreDeductions where
  critical_count : Int
  high_count : Int
  medium_count : Int
  low_count : Int
  total_deduction : Int
deriving DecidableEq

/-- schema.py `Score`. -/
structure Score where
  overall : Nat
  breakdown : ScoreBreakdown
  deductions : ScoreDeductions
deriving DecidableEq

/-- schema.py `VerdictStatus` (StrEnum). -/
inductive VerdictStatus where
  | passed
  | failed
  | provisional
deriving DecidableEq

/-- The StrEnum value of a verdict status. -/
def VerdictStatus.value : VerdictStatus → List Char
  | .passed => pstr "PASS"
  | .failed => pstr "FAIL"
  | .provisional => pstr "PROVISIONAL"

/-- schema.py `Verdict`. -/
structure Verdict where
  status : VerdictStatus
  threshold_applied : Int
  merge_blocking : Bool
  summary : List Char
deriving DecidableEq

/-- schema.py `ToneRegister` (StrEnum). -/
inductive ToneRegister where
  | grudging_respect
  | mild
  | grumpy
  | disappointed
  | frustrated
  | alarmed
  | professional
deriving DecidableEq

/-- schema.py `AsciiArtKey` (StrEnum). -/
inductive AsciiArtKey where
  | all_clear
  | standard
  | warning
  | critical
  | surprise
deriving DecidableEq

/-- schema.py `Personality`. -/
structure Personality where
  tone_register : ToneRegister
  opening_catchphrase : List Char
  closing_line : List Char
  disguise_used : Option (List Char)
  ascii_art_key : AsciiArtKey
deriving DecidableEq

/-- schema.py `ReviewMeta`. -/
structure ReviewMeta where
  review_duration_ms : Int
  tokens_used : Int
  context_files_loaded : Int
  confidence_filter_suppressed : Int
  duplicate_filter_suppressed : Int
deriving DecidableEq

/-- schema.py `GrippyReview.audit_type` literal type. -/
inductive AuditType where
  | pr_review
  | security_audit
  | governance_check
  | surprise_audit
deriving DecidableEq

/-- The literal string of an audit type. -/
def AuditType.value : AuditType → List Char
  | .pr_review => pstr "pr_review"
  | .security_audit => pstr "security_audit"
  | .governance_check => pstr "governance_check"
  | .surprise_audit => pstr "surprise_audit"

/-- schema.py `GrippyReview` (pydantic model; no frozen config). -/
structure GrippyReview where
  version : List Char
  audit_type : AuditType
  timestamp : List Char
  model : List Char
  pr : PRMetadata
  scope : ReviewScope
  findings : List Finding
  escalations : List Escalation
  score : Score
  verdict : Verdict
  personality : Personality
  meta : ReviewMeta
deriving DecidableEq

/-- Concrete finding used to instantiate the fingerprint-stability theorem. -/
def wFinding1 : Finding :=
  ⟨pstr "F-001", .high, 90, .security, pstr "  src/auth.py ", 12, 14,
   pstr "SQL Injection", pstr "user input concatenated into query",
   pstr "use parameterized queries", none, pstr "query = ...", pstr "tsk"⟩

/-- Same normalized triple as `wFinding1`, every other field different. -/
def wFinding2 : Finding :=
  ⟨pstr "F-007", .low, 15, .security, pstr "src/auth.py", 42, 48,
   pstr "sql injection  ", pstr "rewritten description",
   pstr "different suggestion", some (pstr "SEC-001"), pstr "other", pstr "hm"⟩

/-! ## Diff parser (src/src/grippy/github_review.py, parse_diff_lines) -/

/-- Drop an expected prefix, or fail. -/
def dropPrefixL? : List Char → List Char → Option (List Char)
  | [], s => some s
  | _ :: _, [] => none
  | p :: ps, c :: cs => if p == c then dropPrefixL? ps cs else none

/-- Scan for the last split `r = M ++ " b/" ++ F` with `M`, `F` nonempty,
returning `F` — the greedy capture of the regex
`^diff --git a/.+ b/(.+)$` after the literal prefix has been removed. -/
def findLastBSplit : List Char → List Char → Option (List Char)
  | _, [] => none
  | seen, c :: cs =>
      match findLastBSplit (seen ++ [c]) cs with
      | some f => some f
      | none =>
          if startsWithL (pstr " b/") (c :: cs) && !seen.isEmpty &&
             !((c :: cs).drop 3).isEmpty
          then some ((c :: cs).drop 3)
          else none

/-- `re.match(r"^diff --git a/.+ b/(.+)$", line)`: the new-side file path
of a file header line. -/
def parseFileHeader (line : List Char) : Option (List Char) :=
  match dropPrefixL? (pstr "diff --git a/") line with
  | none => none
  | some r => findLastBSplit [] r

/-- Parse one or more decimal digits, returning value and rest. -/
def parseNatDigits (s : List Char) : Option (Nat × List Char) :=
  let d := s.takeWhile Char.isDigit
  if d.isEmpty then none
  else some (d.foldl (fun a c => a * 10 + (c.toNat - 48)) 0, s.dropWhile Char.isDigit)

/-- The optional `(?:,\d+)?` group: a comma must be followed by digits. -/
def skipOptCommaDigits (s : List Char) : Option (List Char) :=
  match s with
  | ',' :: rest => (parseNatDigits rest).map Prod.snd
  | _ => some s

/-- `re.match(r"^@@ -\d+(?:,\d+)? \+(\d+)(?:,\d+)? @@", line)`: the right-side
starting line of a hunk header. -/
def parseHunkHeader (line : List Char) : Option Nat :=
  (dropPrefixL? (pstr "@@ -") line).bind fun r1 =>
  (parseNatDigits r1).bind fun p1 =>
  (skipOptCommaDigits p1.2).bind fun r2 =>
  (dropPrefixL? (pstr " +") r2).bind fun r3 =>
  (parseNatDigits r3).bind fun p2 =>
  (skipOptCommaDigits p2.2).bind fun r4 =>
  (dropPrefixL? (pstr " @@") r4).map fun _ => p2.1

/-- Python `str.splitlines` line-break set (restricted to the code points
Python splits on that can occur in a diff body). -/
def isLineBreak (c : Char) : Bool :=
  decide (c.toNat = 10 ∨ c.toNat = 13 ∨ c.toNat = 11 ∨ c.toNat = 12 ∨
    c.toNat = 0x1c ∨ c.toNat = 0x1d ∨ c.toNat = 0x1e ∨ c.toNat = 0x85 ∨
    c.toNat = 0x2028 ∨ c.toNat = 0x2029)

/-- Python `str.splitlines()` worker (no trailing empty line). -/
def pySplitlinesAux (acc : List Char) : List Char → List (List Char)
  | [] => if acc.isEmpty then [] else [acc]
  | '\r' :: '\n' :: rest => acc :: pySplitlinesAux [] rest
  | c :: rest =>
      if isLineBreak c then acc :: pySplitlinesAux [] rest
      else pySplitlinesAux (acc ++ [c]) rest

/-- Python `str.splitlines()`. -/
def pySplitlines (s : List Char) : List (List Char) := pySplitlinesAux [] s

/-- Association-list lookup (first match), modelling Python dict access. -/
def lookupA : List (List Char × List Nat) → List Char → Option (List Nat)
  | [], _ => none
  | (k2, v) :: rest, k => if k2 = k then some v else lookupA rest k

/-- Append a line number to the entry of key `k` (Python `result[k].add(n)`;
the set is modelled as the list of inserted elements). -/
def addValA : List (List Char × List Nat) → List Char → Nat → List (List Char × List Nat)
  | [], _, _ => []
  | (k2, v) :: rest, k, n =>
      if k2 = k then (k2, v ++ [n]) :: rest else (k2, v) :: addValA rest k n

/-- The mutable state of `parse_diff_lines`'s loop. -/
structure DiffParseState where
  result : List (List Char × List Nat)
  currentFile : Option (List Char)
  rightLine : Nat
deriving DecidableEq

/-- One iteration of the `parse_diff_lines` loop, translated check-for-check
from the source. -/
def processDiffLine (st : DiffParseState) (line : List Char) : DiffParseState :=
  match parseFileHeader line with
  | some f =>
      { st with currentFile := some f,
                result := if (lookupA st.result f).isSome then st.result
                          else st.result ++ [(f, [])] }
  | none =>
  match parseHunkHeader line with
  | some r => { st with rightLine := r }
  | none =>
  match st.currentFile with
  | none => st
  | some f =>
    if startsWithL (pstr "---") line then st
    else if startsWithL (pstr "+++") line then st
    else if startsWithL (pstr "diff --git") line then st
    else if startsWithL (pstr "new file") line then st
    else if startsWithL (pstr "index ") line then st
    else if startsWithL (pstr "-") line then st
    else if startsWithL (pstr "+") line then
      { st with result := addValA st.result f st.rightLine,
                rightLine := st.rightLine + 1 }
    else if startsWithL (pstr " ") line then
      { st with result := addValA st.result f st.rightLine,
                rightLine := st.rightLine + 1 }
    else st

/-- The initial state of the `parse_diff_lines` loop. -/
def diffInit : DiffParseState := ⟨[], none, 0⟩

/-- github_review.py `parse_diff_lines`. -/
def parse_diff_lines (diffText : List Char) : List (List Char × List Nat) :=
  if (pyStrip diffText).isEmpty then []
  else ((pySplitlines diffText).foldl processDiffLine diffInit).result

/-- `(file, n)` is in the addressability map. -/
def memDiffLines (m : List (List Char × List Nat)) (file : List Char) (n : Nat) : Prop :=
  n ∈ (lookupA m file).getD []

/-- Claim-side notion of position inside a diff, following the claim's words:
the file a position belongs to, and the right-side (new-file) line number the
next `+`/` ` line would occupy, as determined by the hunk headers alone.  A
file header opens a new file section and closes any hunk; a hunk header sets
the counter; every line beginning with `+` or a space inside a hunk occupies
one right-side line. -/
structure SpecDiffState where
  specFile : Option (List Char)
  hunk : Option Nat
deriving DecidableEq

/-- One step of the claim-side right-line computation. -/
def specDiffStep (st : SpecDiffState) (line : List Char) : SpecDiffState :=
  match parseFileHeader line with
  | some f => ⟨some f, none⟩
  | none =>
  match parseHunkHeader line with
  | some r => ⟨st.specFile, some r⟩
  | none =>
      if startsWithL (pstr "+") line || startsWithL (pstr " ") line then
        match st.hunk with
        | some v => ⟨st.specFile, some (v + 1)⟩
        | none => st
      else st

/-- Claim-side state after a list of lines. -/
def specStateAt (lines : List (List Char)) : SpecDiffState :=
  lines.foldl specDiffStep ⟨none, none⟩

/-- The claim's soundness target: line index `i` begins with `+` or a space,
sits inside a hunk belonging to `file`, and `n` is its right-side line number
as determined by the hunk headers. -/
def specAddressable (lines : List (List Char)) (i : Nat) (file : List Char) (n : Nat) : Prop :=
  i < lines.length ∧
  (startsWithL (pstr "+") (lines.getD i []) = true ∨
   startsWithL (pstr " ") (lines.getD i []) = true) ∧
  specStateAt (lines.take i) = ⟨some file, some n⟩

/-- A well-formed unified diff: every `+`/` ` content line (the `+++`
file-metadata lines excepted) occurs inside a hunk. -/
def diffWF (lines : List (List Char)) : Prop :=
  ∀ i, i < lines.length →
    (startsWithL (pstr "+") (lines.getD i []) = true ∨
     startsWithL (pstr " ") (lines.getD i []) = true) →
    ¬ startsWithL (pstr "+++") (lines.getD i []) = true →
    (specStateAt (lines.take i)).hunk ≠ none

/-- The inductive invariant tying the source fold to the claim-side
semantics: files agree, the source counter never runs past the claim-side
counter, every number between them is the right-side number of some `+`/` `
line already seen, and every map entry is sound. -/
def diffINV (p : List (List Char)) : Prop :=
  (p.foldl processDiffLine diffInit).currentFile = (specStateAt p).specFile ∧
  (∀ v, (specStateAt p).hunk = some v →
    (p.foldl processDiffLine diffInit).rightLine ≤ v ∧
    (∀ n, (p.foldl processDiffLine diffInit).rightLine ≤ n → n < v →
      ∀ f, (specStateAt p).specFile = some f → ∃ i, specAddressable p i f n)) ∧
  (∀ file n, memDiffLines (p.foldl processDiffLine diffInit).result file n →
    ∃ i, specAddressable p i file n)

/-- The spec's seed diff, used to instantiate the C2 soundness theorem. -/
def wDiff : List Char :=
  pstr "diff --git a/a.py b/a.py\n@@ -10,2 +10,3 @@\n ctx\n+new\n ctx2\n"

/-! ## Retry engine (src/src/grippy/retry.py) -/

/-- The possible agent response contents, following `_parse_response`'s
isinstance chain.  A `GrippyReview` instance always parses; `None` and
empty strings always fail; for mappings and non-empty strings the verdict
of the external JSON parser and pydantic validator (including the markdown
fence stripping applied to strings) is carried as the `outcome` field, and
the Python `str()` rendering of non-string contents as `srep`. -/
inductive AgentContent where
  | reviewVal (srep : List Char) (r : GrippyReview)
  | dictVal (srep : List Char) (outcome : Except (List Char) GrippyReview)
  | strVal (s : List Char) (outcome : Except (List Char) GrippyReview)
  | noneVal

/-- retry.py `_parse_response`. -/
def parseResponse : AgentContent → Except (List Char) GrippyReview
  | .reviewVal _ r => .ok r
  | .noneVal => .error (pstr "Agent returned None")
  | .dictVal _ o => o
  | .strVal s o =>
      if (pyStrip s).isEmpty then .error (pstr "Agent returned empty string") else o

/-- retry.py: `str(content)` if content is not None else `"<None>"`. -/
def rawOfContent : AgentContent → List Char
  | .reviewVal srep _ => srep
  | .dictVal srep _ => srep
  | .strVal s _ => s
  | .noneVal => pstr "<None>"

/-- Decimal digits of a natural number. -/
def natDigits (n : Nat) : List Char := Nat.toDigits 10 n

/-- retry.py: the f-string `Attempt {attempt}: {error_str}`. -/
def attemptErrorEntry (attempt : Nat) (e : List Char) : List Char :=
  pstr "Attempt " ++ natDigits attempt ++ pstr ": " ++ e

/-- retry.py: the rebuilt feedback message sent on a failed attempt. -/
def retryMessage (e : List Char) : List Char :=
  pstr "Your previous output failed validation. Error: " ++ e ++
  pstr "\n\nPlease fix the errors and output a valid JSON object matching the GrippyReview schema. Output ONLY the JSON."

/-- retry.py `ReviewParseError` (its constructor arguments). -/
structure ReviewParseError where
  attempts : Nat
  last_raw : List Char
  errors : List (List Char)
deriving DecidableEq

/-- Observable trace of one `run_review` call: how many times `agent.run`
was invoked, the `(attempt, error)` pairs passed to `on_validation_error`,
and the returned review or raised `ReviewParseError`. -/
structure RunReviewTrace where
  calls : Nat
  cbLog : List (Nat × List Char)
  outcome : Except ReviewParseError GrippyReview

/-- The `for attempt in range(1, max_retries + 2)` loop of retry.py
`run_review`, with the agent modelled as a function from (1-based) call
number and message to response content. -/
def runReviewGo (agent : Nat → List Char → AgentContent) (maxRetries : Nat) :
    Nat → Nat → List Char → List (List Char) → List Char →
    List (Nat × List Char) → RunReviewTrace
  | 0, attempt, _, errors, lastRaw, cb =>
      ⟨attempt - 1, cb, .error ⟨maxRetries + 1, lastRaw, errors⟩⟩
  | rem + 1, attempt, message, errors, _lastRaw, cb =>
      let content := agent attempt message
      let lastRaw2 := (rawOfContent content).take 2000
      match parseResponse content with
      | .ok r => ⟨attempt, cb, .ok r⟩
      | .error e =>
          runReviewGo agent maxRetries rem (attempt + 1)
            (if attempt ≤ maxRetries then retryMessage e else message)
            (errors ++ [attemptErrorEntry attempt e]) lastRaw2
            (cb ++ [(attempt, e)])

/-- retry.py `run_review`. -/
def run_review (agent : Nat → List Char → AgentContent) (message : List Char)
    (maxRetries : Nat) : RunReviewTrace :=
  runReviewGo agent maxRetries (maxRetries + 1) 1 message [] (pstr "") []

/-- Lift a message-independent response schedule to an agent. -/
def schedAgent (sched : Nat → AgentContent) : Nat → List Char → AgentContent :=
  fun k _ => sched k

/-- A concrete valid review used by witnesses. -/
def wReview : GrippyReview :=
  { version := pstr "1.0"
    audit_type := .pr_review
    timestamp := pstr "2025-06-01T12:00:00Z"
    model := pstr "devstral-small"
    pr := ⟨pstr "Add login flow", pstr "octocat", pstr "feat → main", .standard⟩
    scope := ⟨2, 2, 100, [], [pstr "standard"]⟩
    findings := [wFinding1]
    escalations := []
    score := ⟨85, ⟨90, 80, 100, 85, 70⟩, ⟨0, 1, 0, 0, 15⟩⟩
    verdict := ⟨.passed, 70, false, pstr "ok"⟩
    personality := ⟨.grumpy, pstr "hm", pstr "bye", none, .standard⟩
    meta := ⟨1200, 3000, 4, 0, 0⟩ }

/-- A response schedule that fails twice (None, then unparseable string)
and then succeeds with a review instance. -/
def wSched : Nat → AgentContent
  | 1 => .noneVal
  | 2 => .strVal (pstr "garbage\x7b") (.error (pstr "Expecting value"))
  | _ => .reviewVal (pstr "GrippyReview(...)") wReview

/-- A response schedule that always fails. -/
def wSchedFail : Nat → AgentContent
  | _ => .noneVal

/-! ## Model mutability (src/src/grippy/schema.py, pydantic frozen config) -/

/-- schema.py line 96: `Finding` declares `model_config = {"frozen": True}`. -/
def findingFrozen : Bool := true

/-- schema.py `GrippyReview` declares no model config: pydantic's default,
not frozen. -/
def grippyReviewFrozen : Bool := false

/-- Modelled from pydantic's attribute-assignment semantics, on which the
schema relies: assigning to a field of a frozen model raises a validation
error and leaves the record unchanged; on a non-frozen model the assignment
succeeds and replaces the field value (`upd` is the one-field update). -/
def pydanticSetAttr (frozen : Bool) (rec : α) (upd : α → α) : Except (List Char) α :=
  if frozen then .error (pstr "Instance is frozen") else .ok (upd rec)

/-! ## Path traversal check (src/src/grippy/codebase.py) -/

/-- codebase.py `read_file` and `list_files` traversal check, lines 406 and
451: `str(target.resolve()).startswith(str(repo_root.resolve()))`, here on
the already-canonical path strings produced by `resolve()`. -/
def traversalCheckPasses (canonRoot canonTarget : List Char) : Bool :=
  startsWithL canonRoot canonTarget

/-- The claim's notion: the canonical target path is located under the
canonical repository root — it is the root itself or lies below it. -/
def isUnderRoot (canonRoot canonTarget : List Char) : Bool :=
  canonTarget == canonRoot || startsWithL (canonRoot ++ ['/']) canonTarget

/-! ## Resolver (src/src/grippy/github_review.py, resolve_findings_against_prior) -/

/-- A prior-round finding dict (`node_id`, `fingerprint`, `title`). -/
structure PriorFinding where
  node_id : List Char
  fingerprint : List Char
  title : List Char
deriving DecidableEq

/-- github_review.py `PersistingFinding`. -/
structure PersistingFinding where
  finding : Finding
  prior_node_id : List Char
deriving DecidableEq

/-- github_review.py `ResolutionResult`. -/
structure ResolutionResult where
  new : List Finding
  persisting : List PersistingFinding
  resolved : List PriorFinding
deriving DecidableEq

/-- The dict comprehension `{p["fingerprint"]: p for p in prior}`: lookup in
which the last entry with a given fingerprint wins. -/
def priorByFp (prior : List PriorFinding) (fp : List Char) : Option PriorFinding :=
  match prior with
  | [] => none
  | p :: rest =>
      match priorByFp rest fp with
      | some q => some q
      | none => if p.fingerprint = fp then some p else none

/-- One iteration of the `for finding in current` loop. -/
def resolveStep (prior : List PriorFinding)
    (acc : List Finding × List PersistingFinding × List (List Char))
    (finding : Finding) :
    List Finding × List PersistingFinding × List (List Char) :=
  match priorByFp prior finding.fingerprint with
  | some p =>
      (acc.1, acc.2.1 ++ [⟨finding, p.node_id⟩], acc.2.2 ++ [finding.fingerprint])
  | none => (acc.1 ++ [finding], acc.2.1, acc.2.2)

/-- github_review.py `resolve_findings_against_prior`; the third accumulator
component is the `matched_prior_fps` set, modelled as the list of inserted
fingerprints. -/
def resolve_findings_against_prior (current : List Finding)
    (prior : List PriorFinding) : ResolutionResult :=
  let acc := current.foldl (resolveStep prior) ([], [], [])
  ⟨acc.1, acc.2.1, prior.filter (fun p => decide (p.fingerprint ∉ acc.2.2))⟩

/-- The fingerprints of a list of findings. -/
def findingFps (l : List Finding) : List (List Char) := l.map Finding.fingerprint

/-- The fingerprints of a list of prior findings. -/
def priorFps (l : List PriorFinding) : List (List Char) :=
  l.map PriorFinding.fingerprint

/-- The fingerprints of the persisting pairs. -/
def persistingFps (l : List PersistingFinding) : List (List Char) :=
  l.map (fun pf => pf.finding.fingerprint)

/-! ## Review graph (src/src/grippy/graph.py) -/

/-- graph.py `NodeType` (StrEnum). -/
inductive NodeType where
  | review
  | finding
  | rule
  | pattern
  | author
  | file
  | suggestion
deriving DecidableEq

/-- The StrEnum value of a node type. -/
def NodeType.value : NodeType → List Char
  | .review => pstr "REVIEW"
  | .finding => pstr "FINDING"
  | .rule => pstr "RULE"
  | .pattern => pstr "PATTERN"
  | .author => pstr "AUTHOR"
  | .file => pstr "FILE"
  | .suggestion => pstr "SUGGESTION"

/-- graph.py `EdgeType` (StrEnum). -/
inductive EdgeType where
  | violates
  | found_in
  | fixed_by
  | is_a
  | prerequisite_for
  | extracted_from
  | tendency
  | reviewed_by
  | resolves
  | persists_as
deriving DecidableEq

/-- The StrEnum value of an edge type. -/
def EdgeType.value : EdgeType → List Char
  | .violates => pstr "VIOLATES"
  | .found_in => pstr "FOUND_IN"
  | .fixed_by => pstr "FIXED_BY"
  | .is_a => pstr "IS_A"
  | .prerequisite_for => pstr "PREREQUISITE_FOR"
  | .extracted_from => pstr "EXTRACTED_FROM"
  | .tendency => pstr "TENDENCY"
  | .reviewed_by => pstr "REVIEWED_BY"
  | .resolves => pstr "RESOLVES"
  | .persists_as => pstr "PERSISTS_AS"

/-- A node/edge property value (graph.py stores strings and ints here). -/
inductive PropVal where
  | s (v : List Char)
  | n (v : Int)
  | b (v : Bool)
deriving DecidableEq

/-- graph.py `Edge` (named GEdge to avoid clashing with library names). -/
structure GEdge where
  type : EdgeType
  target_id : List Char
  target_type : NodeType
  metadata : List (List Char × PropVal)
deriving DecidableEq

/-- graph.py `Node` (named GNode to avoid clashing with library names). -/
structure GNode where
  id : List Char
  type : NodeType
  label : List Char
  properties : List (List Char × PropVal)
  edges : List GEdge
  created_at : List Char
  source_review_id : Option (List Char)
deriving DecidableEq

/-- graph.py `ReviewGraph`. -/
structure ReviewGraph where
  review_id : List Char
  nodes : List GNode
  timestamp : List Char
deriving DecidableEq

/-- Python `str()` of an int. -/
def intStr (i : Int) : List Char :=
  if i < 0 then '-' :: natDigits i.natAbs else natDigits i.toNat

/-- `":".join(parts)`. -/
def joinColon : List (List Char) → List Char
  | [] => []
  | [x] => x
  | x :: rest => x ++ pstr ":" ++ joinColon rest

/-- graph.py `node_id`: `{TYPE}:{sha256_hex[:12]}` over the colon-joined
type value and stringified parts. -/
def node_id (t : NodeType) (parts : List (List Char)) : List Char :=
  t.value ++ (pstr ":" ++ (sha256Hex (encodeUtf8 (joinColon (t.value :: parts)))).take 12)

/-- The identifier of the review node: `node_id(REVIEW, timestamp, pr.title)`. -/
def reviewNodeId (r : GrippyReview) : List Char :=
  node_id .review [r.timestamp, r.pr.title]

/-- The REVIEW node constructed by `review_to_graph`. -/
def reviewNode (r : GrippyReview) : GNode :=
  { id := reviewNodeId r
    type := .review
    label := pstr "Review: " ++ r.pr.title
    properties := [(pstr "audit_type", .s r.audit_type.value),
                   (pstr "overall_score", .n r.score.overall),
                   (pstr "verdict", .s r.verdict.status.value),
                   (pstr "model", .s r.model)]
    edges := [⟨.reviewed_by, node_id .author [pstr "agent", r.model], .author, []⟩]
    created_at := r.timestamp
    source_review_id := none }

/-- The AUTHOR node for the PR author. -/
def authorNode (r : GrippyReview) : GNode :=
  { id := node_id .author [r.pr.author]
    type := .author
    label := r.pr.author
    properties := [(pstr "branch", .s r.pr.branch)]
    edges := []
    created_at := r.timestamp
    source_review_id := some (reviewNodeId r) }

/-- The FILE node for one finding. -/
def fileNode (r : GrippyReview) (f : Finding) : GNode :=
  { id := node_id .file [f.file]
    type := .file
    label := f.file
    properties := []
    edges := []
    created_at := r.timestamp
    source_review_id := some (reviewNodeId r) }

/-- The SUGGESTION node for one finding. -/
def suggNode (r : GrippyReview) (f : Finding) : GNode :=
  { id := node_id .suggestion [f.file, intStr f.line_start, f.suggestion]
    type := .suggestion
    label := f.suggestion
    properties := []
    edges := []
    created_at := r.timestamp
    source_review_id := some (reviewNodeId r) }

/-- The RULE node for a governance rule id. -/
def ruleNode (r : GrippyReview) (rid : List Char) : GNode :=
  { id := node_id .rule [rid]
    type := .rule
    label := rid
    properties := []
    edges := []
    created_at := r.timestamp
    source_review_id := some (reviewNodeId r) }

/-- Python truthiness of the optional governance rule id:
`if finding.governance_rule_id:` is taken only for a non-None, non-empty
string. -/
def govTruthy (o : Option (List Char)) : Option (List Char) :=
  match o with
  | some s => if s.isEmpty then none else some s
  | none => none

/-- The edge list of a FINDING node: FOUND_IN, FIXED_BY, and VIOLATES when
the governance rule id is truthy. -/
def findingEdges (f : Finding) : List GEdge :=
  [⟨.found_in, node_id .file [f.file], .file, []⟩,
   ⟨.fixed_by, node_id .suggestion [f.file, intStr f.line_start, f.suggestion],
     .suggestion, []⟩] ++
  (match govTruthy f.governance_rule_id with
   | some rid => [⟨.violates, node_id .rule [rid], .rule, []⟩]
   | none => [])

/-- The FINDING node for one finding. -/
def findingNode (r : GrippyReview) (f : Finding) : GNode :=
  { id := node_id .finding [f.file, intStr f.line_start, f.title]
    type := .finding
    label := f.title
    properties := [(pstr "severity", .s f.severity.value),
                   (pstr "confidence", .n f.confidence),
                   (pstr "category", .s f.category.value),
                   (pstr "file", .s f.file),
                   (pstr "line_start", .n f.line_start),
                   (pstr "line_end", .n f.line_end),
                   (pstr "evidence", .s f.evidence),
                   (pstr "fingerprint", .s f.fingerprint),
                   (pstr "status", .s (pstr "open"))]
    edges := findingEdges f
    created_at := r.timestamp
    source_review_id := some (reviewNodeId r) }

/-- The `_add` calls made while processing one finding, in source order:
FILE, SUGGESTION, RULE when truthy, FINDING. -/
def findingNodes (r : GrippyReview) (f : Finding) : List GNode :=
  [fileNode r f, suggNode r f] ++
  (match govTruthy f.governance_rule_id with
   | some rid => [ruleNode r rid]
   | none => []) ++
  [findingNode r f]

/-- The full `_add` call sequence of `review_to_graph`. -/
def rawNodes (r : GrippyReview) : List GNode :=
  [reviewNode r, authorNode r] ++ (r.findings.map (findingNodes r)).flatten

/-- graph.py `_add`: append the node unless its id was already seen. -/
def addNode (acc : List GNode × List (List Char)) (nd : GNode) :
    List GNode × List (List Char) :=
  if nd.id ∈ acc.2 then acc else (acc.1 ++ [nd], acc.2 ++ [nd.id])

/-- graph.py `review_to_graph`. -/
def review_to_graph (r : GrippyReview) : ReviewGraph :=
  { review_id := reviewNodeId r
    nodes := ((rawNodes r).foldl addNode ([], [])).1
    timestamp := r.timestamp }

/-- Claim-side deduplication by identifier, first occurrence kept,
insertion order preserved. -/
def dedupById : List GNode → List GNode
  | [] => []
  | nd :: rest => nd :: dedupById (rest.filter (fun m => !(m.id == nd.id)))
termination_by l => l.length
decreasing_by
  simp only [List.length_cons]
  exact Nat.lt_succ_of_le (List.length_filter_le _ _)

/-- A finding whose governance rule id is present but empty. -/
def wFindingEmptyRule : Finding := { wFinding1 with governance_rule_id := some [] }

/-- A review containing only `wFindingEmptyRule`. -/
def wReviewEmptyRule : GrippyReview := { wReview with findings := [wFindingEmptyRule] }

/-! ## Persistence (src/src/grippy/persistence.py) -/

/-- A row of the SQLite `edges` table. -/
structure EdgeRow where
  source_id : List Char
  edge_type : List Char
  target_id : List Char
  metadata : List Char
deriving DecidableEq

/-- A row of the SQLite `node_meta` table. -/
structure NodeMetaRow where
  node_id : List Char
  node_type : List Char
  label : List Char
  properties : List Char
  review_id : Option (List Char)
  session_id : List Char
  created_at : List Char
deriving DecidableEq

/-- `json.dumps` of a property value, on the value shapes the graph
produces; the result is carried as an opaque column payload. -/
def jsonOfProp : PropVal → List Char
  | .s v => pstr "\"" ++ v ++ pstr "\""
  | .n v => intStr v
  | .b true => pstr "true"
  | .b false => pstr "false"

/-- Comma-join. -/
def joinComma : List (List Char) → List Char
  | [] => []
  | [x] => x
  | x :: rest => x ++ pstr ", " ++ joinComma rest

/-- `json.dumps` of a properties dict (opaque column payload). -/
def jsonOfProps (ps : List (List Char × PropVal)) : List Char :=
  pstr "\x7b" ++ joinComma (ps.map (fun p => pstr "\"" ++ p.1 ++ pstr "\": " ++
    jsonOfProp p.2)) ++ pstr "\x7d"

/-- The SQLite database state (edges + node_meta tables). -/
structure GraphDB where
  edges : List EdgeRow
  node_meta : List NodeMetaRow
deriving DecidableEq

/-- Violation of `UNIQUE(source_id, edge_type, target_id)` by an existing row. -/
def edgeConflict (row r2 : EdgeRow) : Bool :=
  r2.source_id == row.source_id && r2.edge_type == row.edge_type &&
  r2.target_id == row.target_id

/-- `INSERT OR IGNORE INTO edges`. -/
def insertEdgeIgnore (es : List EdgeRow) (row : EdgeRow) : List EdgeRow :=
  if es.any (edgeConflict row) then es else es ++ [row]

/-- Primary-key conflict on `node_meta`. -/
def metaConflict (row r2 : NodeMetaRow) : Bool := r2.node_id == row.node_id

/-- `INSERT OR IGNORE INTO node_meta`. -/
def insertNodeMetaIgnore (ms : List NodeMetaRow) (row : NodeMetaRow) : List NodeMetaRow :=
  if ms.any (metaConflict row) then ms else ms ++ [row]

/-- The node_meta row inserted for a node. -/
def nodeMetaRowOf (session_id : List Char) (nd : GNode) : NodeMetaRow :=
  ⟨nd.id, nd.type.value, nd.label, jsonOfProps nd.properties,
   nd.source_review_id, session_id, nd.created_at⟩

/-- The edge row inserted for one outgoing edge of a node. -/
def edgeRowOf (nd : GNode) (e : GEdge) : EdgeRow :=
  ⟨nd.id, e.type.value, e.target_id, jsonOfProps e.metadata⟩

/-- Ignore-insert a list of edge rows in order. -/
def insertRows (es : List EdgeRow) (rows : List EdgeRow) : List EdgeRow :=
  rows.foldl insertEdgeIgnore es

/-- One iteration of `_store_edges`'s `for node in graph.nodes` loop:
the node's metadata row, then each outgoing edge. -/
def storeStep (sid : List Char) (acc : GraphDB) (nd : GNode) : GraphDB :=
  { node_meta := insertNodeMetaIgnore acc.node_meta (nodeMetaRowOf sid nd),
    edges := insertRows acc.edges (nd.edges.map (edgeRowOf nd)) }

/-- The `_store_edges` fold over a node list. -/
def storeFold (sid : List Char) (db : GraphDB) (l : List GNode) : GraphDB :=
  l.foldl (storeStep sid) db

/-- persistence.py `GrippyStore.store_review`'s effect on the SQLite
database: `_store_edges`; the `_store_nodes` step writes only the LanceDB
vector store and leaves the SQLite tables untouched. -/
def store_review (db : GraphDB) (g : ReviewGraph) (sid : List Char) : GraphDB :=
  storeFold sid db g.nodes

/-! ## Posting adapter (src/src/grippy/github_review.py, post_review) -/

/-- The outcome of one `pr.create_review` call: success, or a
`GithubException` with an HTTP status. -/
inductive SubmitResult where
  | ok
  | err (status : Int)
deriving DecidableEq

/-- A PyGithub review comment dict: path, body, line, side. -/
structure ReviewComment where
  path : List Char
  body : List Char
  line : Int
  side : List Char
deriving DecidableEq

/-- `_SEVERITY_EMOJI[severity]` (every severity is a key, so the `⚪`
default is never taken). -/
def severityEmoji : Severity → List Char
  | .critical => [Char.ofNat 0x1f534]
  | .high => [Char.ofNat 0x1f7e0]
  | .medium => [Char.ofNat 0x1f7e1]
  | .low => [Char.ofNat 0x1f535]

/-- Newline-join. -/
def joinNl : List (List Char) → List Char
  | [] => []
  | [x] => x
  | x :: rest => x ++ pstr "\n" ++ joinNl rest

/-- github_review.py `build_review_comment`. -/
def build_review_comment (f : Finding) : ReviewComment :=
  { path := f.file
    body := joinNl
      [pstr "#### " ++ severityEmoji f.severity ++ pstr " " ++ f.severity.value ++
         pstr ": " ++ f.title,
       pstr "Confidence: " ++ natDigits f.confidence ++ pstr "%",
       [],
       f.description,
       [],
       pstr "**Suggestion:** " ++ f.suggestion,
       [],
       pstr "*" ++ [Char.ofNat 0x2014] ++ pstr " " ++ f.grippy_note ++ pstr "*",
       [],
       pstr "<!-- grippy-finding-" ++ f.fingerprint ++ pstr " -->"]
    line := f.line_start
    side := pstr "RIGHT" }

/-- github_review.py `classify_findings` eligibility test: the finding's
file has a non-empty line set (`if file_lines and ...`, Python truthiness)
containing `line_start`. -/
def inlineEligible (diffLines : List (List Char × List Nat)) (f : Finding) : Bool :=
  match lookupA diffLines f.file with
  | none => false
  | some v => !v.isEmpty && v.any (fun n => (n : Int) == f.line_start)

/-- Generic chunking into pieces of `n` (fuel-based so the kernel can
evaluate it; the fuel `l.length` always suffices). -/
def chunksByAux (n : Nat) : Nat → List α → List (List α)
  | 0, _ => []
  | _, [] => []
  | fuel + 1, x :: xs => ((x :: xs).take n) :: chunksByAux n fuel ((x :: xs).drop n)

/-- `comments[i : i + n]` slices for i = 0, n, 2n, …. -/
def chunksBy (n : Nat) (l : List α) : List (List α) := chunksByAux n l.length l

/-- github_review.py `_REVIEW_BATCH_SIZE`. -/
def REVIEW_BATCH_SIZE : Nat := 25

/-- The batched submission loop of `post_review`, walking aligned slices of
comments and findings, indexed by batch ordinal.  Each successful batch is
recorded with its review event (`"COMMENT"`); a 422 moves the batch's
finding slice to the failed list and continues; any other status
propagates. -/
def postLoop (submit : Nat → SubmitResult) :
    Nat → List (List ReviewComment × List Finding) →
    Except Int (List (List Char × List ReviewComment) × List Finding)
  | _, [] => .ok ([], [])
  | i, (batch, fb) :: rest =>
      match submit i with
      | .ok => (postLoop submit (i + 1) rest).map
          (fun p => ((pstr "COMMENT", batch) :: p.1, p.2))
      | .err st =>
          if st = 422 then
            (postLoop submit (i + 1) rest).map (fun p => (p.1, fb ++ p.2))
          else .error st

/-- The observable outcome of `post_review`: the submitted reviews (event
and comment batch), the findings handed to `format_summary_comment` as its
off-diff section, and the resolution result returned to the caller. -/
structure PostOutcome where
  submitted : List (List Char × List ReviewComment)
  summaryOffDiff : List Finding
  resolution : ResolutionResult
deriving DecidableEq

/-- github_review.py `post_review`, with the GitHub backend abstracted as
the per-batch `submit` outcome and the fork check as a flag. -/
def post_review_model (findings : List Finding) (prior : List PriorFinding)
    (diff : List Char) (isFork : Bool) (submit : Nat → SubmitResult) :
    Except Int PostOutcome :=
  let resolution := resolve_findings_against_prior findings prior
  let dl := parse_diff_lines diff
  let inline0 := findings.filter (inlineEligible dl)
  let off0 := findings.filter (fun f => !(inlineEligible dl f))
  let inline := if isFork then [] else inline0
  let off_diff := if isFork then findings else off0
  let comments := inline.map build_review_comment
  let pairs := (chunksBy REVIEW_BATCH_SIZE comments).zip
    (chunksBy REVIEW_BATCH_SIZE inline)
  Except.map (fun p => ⟨p.1, off_diff ++ p.2, resolution⟩) (postLoop submit 0 pairs)

/-- A finding addressable inline in the seed diff `wDiff`. -/
def wFindingInline : Finding := { wFinding1 with file := pstr "a.py", line_start := 11 }

/-- A submit oracle that always succeeds. -/
def wSubmitOk : Nat → SubmitResult := fun _ => .ok

/-- A submit oracle that always fails with HTTP 500. -/
def wSubmitErr : Nat → SubmitResult := fun _ => .err 500

/-- The inline-eligible findings of a review round, in order. -/
def inlineFindings (findings : List Finding) (diff : List Char) : List Finding :=
  findings.filter (inlineEligible (parse_diff_lines diff))

/-- The off-diff findings of a review round, in order. -/
def offDiffFindings (findings : List Finding) (diff : List Char) : List Finding :=
  findings.filter (fun f => !(inlineEligible (parse_diff_lines diff) f))

/-- The comment batches `post_review` submits (claim-side description). -/
def commentBatches (findings : List Finding) (diff : List Char) :
    List (List ReviewComment) :=
  chunksBy REVIEW_BATCH_SIZE ((inlineFindings findings diff).map build_review_comment)

/-- The finding slices aligned with `commentBatches`. -/
def findingBatches (findings : List Finding) (diff : List Char) : List (List Finding) :=
  chunksBy REVIEW_BATCH_SIZE (inlineFindings findings diff)

/-- Comment batches paired with their finding slices. -/
def batchPairs (findings : List Finding) (diff : List Char) :
    List (List ReviewComment × List Finding) :=
  (commentBatches findings diff).zip (findingBatches findings diff)

/-- Claim-side description of the reviews submitted when no submission
fails with a status other than 422: the batches at the indices where
`submit` succeeds, each with event `"COMMENT"`, in order. -/
def submittedSpec (submit : Nat → SubmitResult) (findings : List Finding)
    (diff : List Char) : List (List Char × List ReviewComment) :=
  ((List.range' 0 (batchPairs findings diff).length).zip (batchPairs findings diff)).filterMap
    (fun q => if submit q.1 = .ok then some (pstr "COMMENT", q.2.1) else none)

/-- Claim-side description of the findings moved off-diff by 422 failures:
the finding slices of exactly the batches whose submission failed, in
order. -/
def failedSpec (submit : Nat → SubmitResult) (findings : List Finding)
    (diff : List Char) : List Finding :=
  (((List.range' 0 (batchPairs findings diff).length).zip (batchPairs findings diff)).filterMap
    (fun q => if submit q.1 = .ok then none else some q.2.2)).flatten

/-- A concrete prior-round finding used by witnesses. -/
def wPrior1 : PriorFinding :=
  ⟨pstr "finding:node1", pstr "beefcafe0123", pstr "Old finding"⟩

/-! ## CI orchestrator persistence stage (src/src/grippy/review.py, main) -/

/-- The keyword-only parameters of `GrippyStore.__init__`, all without
defaults (persistence.py lines 87-93). -/
def grippyStoreInitKwOnlyParams : List (List Char) :=
  [pstr "graph_db_path", pstr "lance_dir", pstr "embedder"]

/-- The keyword arguments `main` passes when constructing the store
(review.py lines 470-474). -/
def mainPersistCallKwargs : List (List Char) :=
  [pstr "graph_db_path", pstr "lance_dir", pstr "embed_fn"]

/-- Python's keyword-binding check for a call to a function whose
parameters are keyword-only and all required: a `TypeError` is raised
when some keyword is not a parameter, or some parameter receives no
keyword. -/
def pyCallRaisesTypeError (params kwargs : List (List Char)) : Bool :=
  kwargs.any (fun k => !(params.contains k)) ||
  params.any (fun p => !(kwargs.contains p))

/-- The observable outcome of review.py `main` steps 5-6. -/
structure PersistStageTrace where
  persisted : Bool
  warned : Bool
  commentPosted : Bool
deriving DecidableEq

/-- review.py `main`, steps 5 and 6: inside the try block the store is
constructed with `embed_fn=`, then `store.store_review`; any exception is
caught and logged as a `::warning::`; afterwards the review comment is
posted unconditionally.  `storeWouldSucceed` models whether the
construct-and-persist path would succeed were it ever reached. -/
def mainPersistAndPost (storeWouldSucceed : Bool) : PersistStageTrace :=
  if pyCallRaisesTypeError grippyStoreInitKwOnlyParams mainPersistCallKwargs then
    { persisted := false, warned := true, commentPosted := true }
  else if storeWouldSucceed then
    { persisted := true, warned := false, commentPosted := true }
  else
    { persisted := false, warned := true, commentPosted := true }

/-! ## Theorems -/

/-- C1: a Finding's fingerprint is the first 12 hex characters of the sha256
digest of `file.strip() + ":" + category + ":" + title.strip().lower()`, and
any two findings with equal normalized triples (file stripped, category, title
stripped and lowercased) have equal fingerprints, regardless of every other
field. -/
theorem C1_fingerprint_stability (f1 f2 : Finding)
    (hfile : pyStrip f1.file = pyStrip f2.file)
    (hcat : f1.category = f2.category)
    (htitle : pyLower (pyStrip f1.title) = pyLower (pyStrip f2.title)) :
    f1.fingerprint = (sha256Hex (encodeUtf8 (fingerprintKey f1))).take 12 ∧
    f1.fingerprint = f2.fingerprint := by
  refine ⟨rfl, ?_⟩
  unfold Finding.fingerprint fingerprintKey
  rw [hfile, hcat, htitle]

/-- Witness for C1 at two concrete findings that share the normalized triple
but differ in lines, severity, confidence, descriptions and rule id. -/
theorem C1_fingerprint_stability_witness :
    wFinding1.fingerprint = (sha256Hex (encodeUtf8 (fingerprintKey wFinding1))).take 12 ∧
    wFinding1.fingerprint = wFinding2.fingerprint :=
  C1_fingerprint_stability wFinding1 wFinding2 (by decide) (by decide) (by decide)

/-! ### C2 infrastructure -/

theorem startsWithL_cons_elim {a : Char} {as l : List Char}
    (h : startsWithL (a :: as) l = true) :
    ∃ cs, l = a :: cs ∧ startsWithL as cs = true := by
  cases l with
  | nil => simp [startsWithL] at h
  | cons c cs =>
      simp only [startsWithL, Bool.and_eq_true, beq_iff_eq] at h
      exact ⟨cs, by rw [h.1], h.2⟩

theorem startsWithL_false_of_head {b a : Char} {bs cs : List Char} (hne : b ≠ a) :
    startsWithL (b :: bs) (a :: cs) = false := by
  simp [startsWithL, hne]

theorem startsWithL_single {a : Char} (cs : List Char) :
    startsWithL [a] (a :: cs) = true := by
  simp [startsWithL]

theorem bool_false_of_not_true {b : Bool} (h : ¬ b = true) : b = false := by
  cases b
  · rfl
  · exact absurd rfl h

theorem lookupA_append_some {m1 : List (List Char × List Nat)}
    (m2 : List (List Char × List Nat)) {k : List Char} {v : List Nat}
    (h : lookupA m1 k = some v) : lookupA (m1 ++ m2) k = some v := by
  induction m1 with
  | nil => simp [lookupA] at h
  | cons e rest ih =>
      obtain ⟨k2, v2⟩ := e
      by_cases hk : k2 = k
      · simpa [lookupA, hk] using h
      · simp only [lookupA, List.cons_append, if_neg hk] at h ⊢
        exact ih h

theorem lookupA_append_none {m1 : List (List Char × List Nat)}
    (m2 : List (List Char × List Nat)) {k : List Char}
    (h : lookupA m1 k = none) : lookupA (m1 ++ m2) k = lookupA m2 k := by
  induction m1 with
  | nil => simp [lookupA]
  | cons e rest ih =>
      obtain ⟨k2, v2⟩ := e
      by_cases hk : k2 = k
      · simp [lookupA, hk] at h
      · simp only [lookupA, List.cons_append, if_neg hk] at h ⊢
        exact ih h

theorem memDiffLines_nil (file : List Char) (n : Nat) : ¬ memDiffLines [] file n := by
  simp [memDiffLines, lookupA]

theorem memDiffLines_append_nilEntry (m : List (List Char × List Nat))
    (f file : List Char) (n : Nat)
    (h : memDiffLines (m ++ [(f, [])]) file n) : memDiffLines m file n := by
  unfold memDiffLines at *
  cases hl : lookupA m file with
  | some v =>
      rw [lookupA_append_some _ hl] at h
      exact h
  | none =>
      rw [lookupA_append_none _ hl] at h
      by_cases hf : f = file
      · simp [lookupA, hf] at h
      · simp [lookupA, hf] at h

theorem memDiffLines_addValA (m : List (List Char × List Nat)) (k : List Char)
    (x : Nat) (file : List Char) (n : Nat)
    (h : memDiffLines (addValA m k x) file n) :
    memDiffLines m file n ∨ (file = k ∧ n = x) := by
  induction m with
  | nil => simp [addValA, memDiffLines, lookupA] at h
  | cons e rest ih =>
      obtain ⟨k2, v⟩ := e
      unfold memDiffLines at *
      by_cases hk : k2 = k
      · simp only [addValA, if_pos hk] at h
        by_cases hk2f : k2 = file
        · simp only [lookupA, if_pos hk2f] at h ⊢
          simp only [Option.getD_some] at h ⊢
          rcases List.mem_append.mp h with h1 | h1
          · exact Or.inl h1
          · right
            refine ⟨by rw [← hk2f, hk], ?_⟩
            simpa using h1
        · simp only [lookupA, if_neg hk2f] at h ⊢
          exact Or.inl h
      · simp only [addValA, if_neg hk] at h
        by_cases hk2f : k2 = file
        · simp only [lookupA, if_pos hk2f] at h ⊢
          exact Or.inl h
        · simp only [lookupA, if_neg hk2f] at h ⊢
          exact ih h

theorem specStateAt_snoc (p : List (List Char)) (l : List Char) :
    specStateAt (p ++ [l]) = specDiffStep (specStateAt p) l := by
  simp [specStateAt, List.foldl_append]

theorem codeFold_snoc (p : List (List Char)) (l : List Char) :
    (p ++ [l]).foldl processDiffLine diffInit =
      processDiffLine (p.foldl processDiffLine diffInit) l := by
  simp [List.foldl_append]

theorem specAddressable_mono (p q : List (List Char)) (i : Nat) (f : List Char)
    (n : Nat) (h : specAddressable p i f n) : specAddressable (p ++ q) i f n := by
  obtain ⟨hi, hs, hst⟩ := h
  refine ⟨by simp; omega, ?_, ?_⟩
  · rw [List.getD_append _ _ _ _ hi]
    exact hs
  · rw [List.take_append_of_le_length (le_of_lt hi)]
    exact hst

theorem specAddressable_last (p : List (List Char)) (l : List Char) (f : List Char)
    (n : Nat)
    (hs : startsWithL (pstr "+") l = true ∨ startsWithL (pstr " ") l = true)
    (hst : specStateAt p = ⟨some f, some n⟩) :
    specAddressable (p ++ [l]) p.length f n := by
  refine ⟨by simp, ?_, ?_⟩
  · have hg : (p ++ [l]).getD p.length [] = l := by simp [List.getD_append_right]
    rw [hg]
    exact hs
  · have ht : (p ++ [l]).take p.length = p := by simp [List.take_append_of_le_length]
    rw [ht]
    exact hst

theorem diffWF_snoc (p : List (List Char)) (l : List Char)
    (h : diffWF (p ++ [l])) : diffWF p := by
  intro i hi hs hn3
  have hi2 : i < (p ++ [l]).length := by simp; omega
  have hg : (p ++ [l]).getD i [] = p.getD i [] := List.getD_append _ _ _ _ hi
  have ht : (p ++ [l]).take i = p.take i :=
    List.take_append_of_le_length (le_of_lt hi)
  have hr := h i hi2 (by rw [hg]; exact hs) (by rw [hg]; exact hn3)
  rwa [ht] at hr

theorem wf_last_hunk (p : List (List Char)) (l : List Char)
    (hwf : diffWF (p ++ [l]))
    (hstart : startsWithL (pstr "+") l = true ∨ startsWithL (pstr " ") l = true)
    (hnp3 : ¬ startsWithL (pstr "+++") l = true) :
    (specStateAt p).hunk ≠ none := by
  have hi2 : p.length < (p ++ [l]).length := by simp
  have hg : (p ++ [l]).getD p.length [] = l := by simp [List.getD_append_right]
  have ht : (p ++ [l]).take p.length = p := by simp [List.take_append_of_le_length]
  have hr := hwf p.length hi2 (by rw [hg]; exact hstart) (by rw [hg]; exact hnp3)
  rwa [ht] at hr

theorem specDiffStep_id (l : List Char) (S : SpecDiffState)
    (hfh : parseFileHeader l = none) (hhh : parseHunkHeader l = none)
    (hplus : startsWithL (pstr "+") l = false)
    (hspace : startsWithL (pstr " ") l = false) : specDiffStep S l = S := by
  simp [specDiffStep, hfh, hhh, hplus, hspace]

theorem diffINV_carry (p : List (List Char)) (l : List Char) (inv : diffINV p)
    (hcode : processDiffLine (p.foldl processDiffLine diffInit) l =
      p.foldl processDiffLine diffInit)
    (hspec : specDiffStep (specStateAt p) l = specStateAt p) :
    diffINV (p ++ [l]) := by
  unfold diffINV at inv ⊢
  obtain ⟨hA, hB, hC⟩ := inv
  rw [codeFold_snoc, specStateAt_snoc, hcode, hspec]
  refine ⟨hA, fun v hv => ⟨(hB v hv).1, fun n h1 h2 f hf => ?_⟩, fun file n hm => ?_⟩
  · obtain ⟨i, hi⟩ := (hB v hv).2 n h1 h2 f hf
    exact ⟨i, specAddressable_mono p [l] i f n hi⟩
  · obtain ⟨i, hi⟩ := hC file n hm
    exact ⟨i, specAddressable_mono p [l] i file n hi⟩

theorem diffINV_specAdvance (p : List (List Char)) (l : List Char) (inv : diffINV p)
    (hfh : parseFileHeader l = none) (hhh : parseHunkHeader l = none)
    (hcode : processDiffLine (p.foldl processDiffLine diffInit) l =
      p.foldl processDiffLine diffInit)
    (hstart : startsWithL (pstr "+") l = true ∨ startsWithL (pstr " ") l = true) :
    diffINV (p ++ [l]) := by
  have hor : (startsWithL (pstr "+") l || startsWithL (pstr " ") l) = true := by
    rcases hstart with h | h <;> simp [h]
  cases hh : (specStateAt p).hunk with
  | none =>
      have hspec : specDiffStep (specStateAt p) l = specStateAt p := by
        simp [specDiffStep, hfh, hhh, hor, hh]
      exact diffINV_carry p l inv hcode hspec
  | some v =>
      have hspec : specDiffStep (specStateAt p) l =
          ⟨(specStateAt p).specFile, some (v + 1)⟩ := by
        simp [specDiffStep, hfh, hhh, hor, hh]
      unfold diffINV at inv ⊢
      obtain ⟨hA, hB, hC⟩ := inv
      rw [codeFold_snoc, specStateAt_snoc, hcode, hspec]
      refine ⟨hA, ?_, ?_⟩
      · intro v2 hv2
        simp only at hv2
        have hv2e : v2 = v + 1 := by
          exact (Option.some_inj.mp hv2).symm
        subst hv2e
        refine ⟨by have := (hB v hh).1; omega, ?_⟩
        intro n h1 h2 f hf
        simp only at hf
        by_cases hnv : n = v
        · subst hnv
          refine ⟨p.length, specAddressable_last p l f n hstart ?_⟩
          rw [← hf, ← hh]
        · have h2v : n < v := by omega
          obtain ⟨i, hi⟩ := (hB v hh).2 n h1 h2v f hf
          exact ⟨i, specAddressable_mono p [l] i f n hi⟩
      · intro file n hm
        obtain ⟨i, hi⟩ := hC file n hm
        exact ⟨i, specAddressable_mono p [l] i file n hi⟩

theorem diffINV_addCase (p : List (List Char)) (l : List Char) (f0 : List Char)
    (inv : diffINV p)
    (hfh : parseFileHeader l = none) (hhh : parseHunkHeader l = none)
    (hstart : startsWithL (pstr "+") l = true ∨ startsWithL (pstr " ") l = true)
    (hcf : (p.foldl processDiffLine diffInit).currentFile = some f0)
    (hcode : processDiffLine (p.foldl processDiffLine diffInit) l =
      { p.foldl processDiffLine diffInit with
        result := addValA (p.foldl processDiffLine diffInit).result f0
                    (p.foldl processDiffLine diffInit).rightLine,
        rightLine := (p.foldl processDiffLine diffInit).rightLine + 1 })
    (hhne : (specStateAt p).hunk ≠ none) :
    diffINV (p ++ [l]) := by
  unfold diffINV at inv ⊢
  obtain ⟨hA, hB, hC⟩ := inv
  rw [codeFold_snoc, specStateAt_snoc, hcode]
  cases hh : (specStateAt p).hunk with
  | none => exact absurd hh hhne
  | some v =>
      have hor : (startsWithL (pstr "+") l || startsWithL (pstr " ") l) = true := by
        rcases hstart with h | h <;> simp [h]
      have hspec : specDiffStep (specStateAt p) l =
          ⟨(specStateAt p).specFile, some (v + 1)⟩ := by
        simp [specDiffStep, hfh, hhh, hor, hh]
      rw [hspec]
      have hsf : (specStateAt p).specFile = some f0 := by rw [← hA]; exact hcf
      have hrl : (p.foldl processDiffLine diffInit).rightLine ≤ v := (hB v hh).1
      have hSS : specStateAt p = ⟨some f0, some v⟩ := by rw [← hsf, ← hh]
      refine ⟨by simpa using hA, ?_, ?_⟩
      · intro v2 hv2
        simp only at hv2
        have hv2e : v2 = v + 1 := (Option.some_inj.mp hv2).symm
        subst hv2e
        refine ⟨by simp; omega, ?_⟩
        intro n h1 h2 f hf
        simp only at hf h1
        have hff : f0 = f := by
          rw [hsf] at hf
          exact Option.some_inj.mp hf
        by_cases hnv : n = v
        · subst hnv
          refine ⟨p.length, specAddressable_last p l f n hstart ?_⟩
          rw [← hf, ← hh]
        · have h2v : n < v := by omega
          obtain ⟨i, hi⟩ := (hB v hh).2 n (by omega) h2v f hf
          exact ⟨i, specAddressable_mono p [l] i f n hi⟩
      · intro file n hm
        simp only at hm
        rcases memDiffLines_addValA _ _ _ _ _ hm with hold | ⟨hfile, hn⟩
        · obtain ⟨i, hi⟩ := hC file n hold
          exact ⟨i, specAddressable_mono p [l] i file n hi⟩
        · rw [hfile, hn]
          by_cases hrv : (p.foldl processDiffLine diffInit).rightLine = v
          · refine ⟨p.length, specAddressable_last p l f0 _ hstart ?_⟩
            rw [hrv, hSS]
          · have hlt : (p.foldl processDiffLine diffInit).rightLine < v := by omega
            obtain ⟨i, hi⟩ := (hB v hh).2 _ (le_refl _) hlt f0 hsf
            exact ⟨i, specAddressable_mono p [l] i f0 _ hi⟩

theorem diffINV_snoc (p : List (List Char)) (l : List Char)
    (hwf : diffWF (p ++ [l])) (inv : diffINV p) : diffINV (p ++ [l]) := by
  cases hfh : parseFileHeader l with
  | some f =>
      unfold diffINV at inv ⊢
      obtain ⟨hA, hB, hC⟩ := inv
      rw [codeFold_snoc, specStateAt_snoc]
      simp only [processDiffLine, specDiffStep, hfh]
      refine ⟨by simp, ?_, ?_⟩
      · intro v hv
        simp at hv
      · intro file n hm
        by_cases hex : (lookupA (p.foldl processDiffLine diffInit).result f).isSome
        · rw [if_pos hex] at hm
          obtain ⟨i, hi⟩ := hC file n hm
          exact ⟨i, specAddressable_mono p [l] i file n hi⟩
        · rw [if_neg hex] at hm
          obtain ⟨i, hi⟩ := hC file n (memDiffLines_append_nilEntry _ _ _ _ hm)
          exact ⟨i, specAddressable_mono p [l] i file n hi⟩
  | none =>
  cases hhh : parseHunkHeader l with
  | some r =>
      unfold diffINV at inv ⊢
      obtain ⟨hA, hB, hC⟩ := inv
      rw [codeFold_snoc, specStateAt_snoc]
      simp only [processDiffLine, specDiffStep, hfh, hhh]
      refine ⟨by simpa using hA, ?_, ?_⟩
      · intro v hv
        have hv2 : v = r := (Option.some_inj.mp hv).symm
        subst hv2
        exact ⟨by simp, fun n h1 h2 f hf => by omega⟩
      · intro file n hm
        obtain ⟨i, hi⟩ := hC file n hm
        exact ⟨i, specAddressable_mono p [l] i file n hi⟩
  | none =>
  cases hcf : (p.foldl processDiffLine diffInit).currentFile with
  | none =>
      have hcode : processDiffLine (p.foldl processDiffLine diffInit) l =
          p.foldl processDiffLine diffInit := by
        simp only [processDiffLine, hfh, hhh, hcf]
      by_cases hpl : startsWithL (pstr "+") l = true ∨ startsWithL (pstr " ") l = true
      · exact diffINV_specAdvance p l inv hfh hhh hcode hpl
      · have hplus : startsWithL (pstr "+") l = false :=
          bool_false_of_not_true fun h => hpl (Or.inl h)
        have hspace : startsWithL (pstr " ") l = false :=
          bool_false_of_not_true fun h => hpl (Or.inr h)
        exact diffINV_carry p l inv hcode (specDiffStep_id l _ hfh hhh hplus hspace)
  | some f0 =>
      by_cases hg1 : startsWithL (pstr "---") l = true
      · obtain ⟨cs, hl, -⟩ := startsWithL_cons_elim hg1
        have hplus : startsWithL (pstr "+") l = false := by
          rw [hl]; exact startsWithL_false_of_head (by decide)
        have hspace : startsWithL (pstr " ") l = false := by
          rw [hl]; exact startsWithL_false_of_head (by decide)
        have hcode : processDiffLine (p.foldl processDiffLine diffInit) l =
            p.foldl processDiffLine diffInit := by
          simp only [processDiffLine, hfh, hhh, hcf, if_pos hg1]
        exact diffINV_carry p l inv hcode (specDiffStep_id l _ hfh hhh hplus hspace)
      · by_cases hg2 : startsWithL (pstr "+++") l = true
        · obtain ⟨cs, hl, -⟩ := startsWithL_cons_elim hg2
          have hplus : startsWithL (pstr "+") l = true := by
            rw [hl]; exact startsWithL_single cs
          have hcode : processDiffLine (p.foldl processDiffLine diffInit) l =
              p.foldl processDiffLine diffInit := by
            simp only [processDiffLine, hfh, hhh, hcf, if_neg hg1, if_pos hg2]
          exact diffINV_specAdvance p l inv hfh hhh hcode (Or.inl hplus)
        · by_cases hg3 : startsWithL (pstr "diff --git") l = true
          · obtain ⟨cs, hl, -⟩ := startsWithL_cons_elim hg3
            have hplus : startsWithL (pstr "+") l = false := by
              rw [hl]; exact startsWithL_false_of_head (by decide)
            have hspace : startsWithL (pstr " ") l = false := by
              rw [hl]; exact startsWithL_false_of_head (by decide)
            have hcode : processDiffLine (p.foldl processDiffLine diffInit) l =
                p.foldl processDiffLine diffInit := by
              simp only [processDiffLine, hfh, hhh, hcf, if_neg hg1, if_neg hg2,
                if_pos hg3]
            exact diffINV_carry p l inv hcode
              (specDiffStep_id l _ hfh hhh hplus hspace)
          · by_cases hg4 : startsWithL (pstr "new file") l = true
            · obtain ⟨cs, hl, -⟩ := startsWithL_cons_elim hg4
              have hplus : startsWithL (pstr "+") l = false := by
                rw [hl]; exact startsWithL_false_of_head (by decide)
              have hspace : startsWithL (pstr " ") l = false := by
                rw [hl]; exact startsWithL_false_of_head (by decide)
              have hcode : processDiffLine (p.foldl processDiffLine diffInit) l =
                  p.foldl processDiffLine diffInit := by
                simp only [processDiffLine, hfh, hhh, hcf, if_neg hg1, if_neg hg2,
                  if_neg hg3, if_pos hg4]
              exact diffINV_carry p l inv hcode
                (specDiffStep_id l _ hfh hhh hplus hspace)
            · by_cases hg5 : startsWithL (pstr "index ") l = true
              · obtain ⟨cs, hl, -⟩ := startsWithL_cons_elim hg5
                have hplus : startsWithL (pstr "+") l = false := by
                  rw [hl]; exact startsWithL_false_of_head (by decide)
                have hspace : startsWithL (pstr " ") l = false := by
                  rw [hl]; exact startsWithL_false_of_head (by decide)
                have hcode : processDiffLine (p.foldl processDiffLine diffInit) l =
                    p.foldl processDiffLine diffInit := by
                  simp only [processDiffLine, hfh, hhh, hcf, if_neg hg1, if_neg hg2,
                    if_neg hg3, if_neg hg4, if_pos hg5]
                exact diffINV_carry p l inv hcode
                  (specDiffStep_id l _ hfh hhh hplus hspace)
              · by_cases hg6 : startsWithL (pstr "-") l = true
                · obtain ⟨cs, hl, -⟩ := startsWithL_cons_elim hg6
                  have hplus : startsWithL (pstr "+") l = false := by
                    rw [hl]; exact startsWithL_false_of_head (by decide)
                  have hspace : startsWithL (pstr " ") l = false := by
                    rw [hl]; exact startsWithL_false_of_head (by decide)
                  have hcode : processDiffLine (p.foldl processDiffLine diffInit) l =
                      p.foldl processDiffLine diffInit := by
                    simp only [processDiffLine, hfh, hhh, hcf, if_neg hg1, if_neg hg2,
                      if_neg hg3, if_neg hg4, if_neg hg5, if_pos hg6]
                  exact diffINV_carry p l inv hcode
                    (specDiffStep_id l _ hfh hhh hplus hspace)
                · by_cases hg7 : startsWithL (pstr "+") l = true
                  · have hwl : (specStateAt p).hunk ≠ none :=
                      wf_last_hunk p l hwf (Or.inl hg7) hg2
                    have hcode : processDiffLine (p.foldl processDiffLine diffInit) l =
                        { p.foldl processDiffLine diffInit with
                          result := addValA (p.foldl processDiffLine diffInit).result f0
                            (p.foldl processDiffLine diffInit).rightLine,
                          rightLine :=
                            (p.foldl processDiffLine diffInit).rightLine + 1 } := by
                      simp only [processDiffLine, hfh, hhh, hcf, if_neg hg1, if_neg hg2,
                        if_neg hg3, if_neg hg4, if_neg hg5, if_neg hg6, if_pos hg7]
                    exact diffINV_addCase p l f0 inv hfh hhh (Or.inl hg7) hcf hcode hwl
                  · by_cases hg8 : startsWithL (pstr " ") l = true
                    · have hwl : (specStateAt p).hunk ≠ none :=
                        wf_last_hunk p l hwf (Or.inr hg8) hg2
                      have hcode : processDiffLine (p.foldl processDiffLine diffInit) l =
                          { p.foldl processDiffLine diffInit with
                            result := addValA (p.foldl processDiffLine diffInit).result f0
                              (p.foldl processDiffLine diffInit).rightLine,
                            rightLine :=
                              (p.foldl processDiffLine diffInit).rightLine + 1 } := by
                        simp only [processDiffLine, hfh, hhh, hcf, if_neg hg1, if_neg hg2,
                          if_neg hg3, if_neg hg4, if_neg hg5, if_neg hg6, if_neg hg7,
                          if_pos hg8]
                      exact diffINV_addCase p l f0 inv hfh hhh (Or.inr hg8) hcf hcode hwl
                    · have hplus : startsWithL (pstr "+") l = false :=
                        bool_false_of_not_true hg7
                      have hspace : startsWithL (pstr " ") l = false :=
                        bool_false_of_not_true hg8
                      have hcode : processDiffLine (p.foldl processDiffLine diffInit) l =
                          p.foldl processDiffLine diffInit := by
                        simp only [processDiffLine, hfh, hhh, hcf, if_neg hg1, if_neg hg2,
                          if_neg hg3, if_neg hg4, if_neg hg5, if_neg hg6, if_neg hg7,
                          if_neg hg8]
                      exact diffINV_carry p l inv hcode
                        (specDiffStep_id l _ hfh hhh hplus hspace)

theorem diffINV_of_WF (p : List (List Char)) (hwf : diffWF p) : diffINV p := by
  induction p using List.reverseRecOn with
  | nil =>
      unfold diffINV
      refine ⟨rfl, ?_, ?_⟩
      · intro v hv
        simp [specStateAt] at hv
      · intro file n hm
        exact absurd hm (memDiffLines_nil file n)
  | append_singleton p l ih =>
      exact diffINV_snoc p l hwf (ih (diffWF_snoc p l hwf))

/-- C2: for every well-formed unified diff D and every `(file, line)` pair in
`parse_diff_lines(D)`, some line of D beginning with `+` or a space sits
inside a hunk belonging to `file` and has `line` as its right-side (new-file)
line number as determined by the hunk headers; and lines beginning with `\`
(the no-newline marker) leave the parser state unchanged — they never enter
any set and never advance the right-side counter. -/
theorem C2_parse_diff_soundness :
    (∀ (D file : List Char) (n : Nat), diffWF (pySplitlines D) →
        memDiffLines (parse_diff_lines D) file n →
        ∃ i, specAddressable (pySplitlines D) i file n) ∧
    (∀ (st : DiffParseState) (l : List Char),
        startsWithL (pstr "\\") l = true → processDiffLine st l = st) := by
  constructor
  · intro D file n hwf hmem
    unfold parse_diff_lines at hmem
    by_cases hE : (pyStrip D).isEmpty
    · rw [if_pos hE] at hmem
      exact absurd hmem (memDiffLines_nil file n)
    · rw [if_neg hE] at hmem
      have hinv := diffINV_of_WF (pySplitlines D) hwf
      unfold diffINV at hinv
      exact hinv.2.2 file n hmem
  · intro st l h
    obtain ⟨cs, hl, -⟩ := startsWithL_cons_elim h
    subst hl
    cases st with
    | mk res cf rl => cases cf <;> rfl

/-- Witness for C2 at the spec's seed diff: line 11 of a.py is addressable,
and the no-newline marker line is a no-op for the parser. -/
theorem C2_parse_diff_soundness_witness :
    (∃ i, specAddressable (pySplitlines wDiff) i (pstr "a.py") 11) ∧
    processDiffLine diffInit (pstr "\\ No newline at end of file") = diffInit :=
  ⟨C2_parse_diff_soundness.1 wDiff (pstr "a.py") 11
      (by unfold diffWF; decide) (by unfold memDiffLines; decide),
   C2_parse_diff_soundness.2 diffInit (pstr "\\ No newline at end of file")
      (by decide)⟩

/-! ### C3 infrastructure -/

theorem runReviewGo_all_fail (sched : Nat → AgentContent) (n : Nat) :
    ∀ (rem attempt : Nat) (msg : List Char) (errors : List (List Char))
      (lastRaw : List Char) (cb : List (Nat × List Char)),
      1 ≤ attempt →
      (∀ k, attempt ≤ k → k < attempt + rem →
        ∃ e, parseResponse (sched k) = Except.error e) →
      (runReviewGo (schedAgent sched) n rem attempt msg errors lastRaw cb).calls =
          attempt - 1 + rem ∧
      (runReviewGo (schedAgent sched) n rem attempt msg errors lastRaw cb).cbLog.map
          Prod.fst = cb.map Prod.fst ++ List.range' attempt rem ∧
      ∃ err,
        (runReviewGo (schedAgent sched) n rem attempt msg errors lastRaw cb).outcome =
            Except.error err ∧
        err.attempts = n + 1 ∧
        err.errors.length = errors.length + rem ∧
        (rem = 0 → err.last_raw = lastRaw) ∧
        (1 ≤ rem →
          err.last_raw = (rawOfContent (sched (attempt + rem - 1))).take 2000) := by
  intro rem
  induction rem with
  | zero =>
      intro attempt msg errors lastRaw cb h1 hfail
      exact ⟨by simp [runReviewGo], by simp [runReviewGo],
        ⟨n + 1, lastRaw, errors⟩, rfl, rfl, by simp, fun _ => rfl,
        fun h => absurd h (by omega)⟩
  | succ rem ih =>
      intro attempt msg errors lastRaw cb h1 hfail
      obtain ⟨e, he⟩ := hfail attempt (le_refl _) (by omega)
      have hstep : runReviewGo (schedAgent sched) n (rem + 1) attempt msg errors lastRaw cb =
          runReviewGo (schedAgent sched) n rem (attempt + 1)
            (if attempt ≤ n then retryMessage e else msg)
            (errors ++ [attemptErrorEntry attempt e])
            ((rawOfContent (sched attempt)).take 2000)
            (cb ++ [(attempt, e)]) := by
        simp only [runReviewGo, schedAgent, he]
      rw [hstep]
      obtain ⟨hcalls, hmap, err, hout, hatt, herrlen, hlr0, hlr1⟩ :=
        ih (attempt + 1) (if attempt ≤ n then retryMessage e else msg)
          (errors ++ [attemptErrorEntry attempt e])
          ((rawOfContent (sched attempt)).take 2000) (cb ++ [(attempt, e)])
          (by omega) (fun k hk1 hk2 => hfail k (by omega) (by omega))
      refine ⟨by rw [hcalls]; omega, ?_, err, hout, hatt, ?_,
        fun h0 => absurd h0 (by omega), ?_⟩
      · rw [hmap]
        have hr : List.range' attempt (rem + 1) =
            attempt :: List.range' (attempt + 1) rem := rfl
        rw [hr]
        simp
      · rw [herrlen]
        simp
        omega
      · intro _
        rcases Nat.eq_zero_or_pos rem with hr | hr
        · subst hr
          have h0 := hlr0 rfl
          have hx : attempt + (0 + 1) - 1 = attempt := by omega
          rw [hx]
          exact h0
        · have h1x := hlr1 (by omega)
          have hx : attempt + 1 + rem - 1 = attempt + (rem + 1) - 1 := by omega
          rw [hx] at h1x
          exact h1x

theorem runReviewGo_first_success (sched : Nat → AgentContent) (n : Nat) :
    ∀ (rem attempt : Nat) (msg : List Char) (errors : List (List Char))
      (lastRaw : List Char) (cb : List (Nat × List Char)) (k0 : Nat)
      (r : GrippyReview),
      1 ≤ attempt → attempt ≤ k0 → k0 < attempt + rem →
      parseResponse (sched k0) = Except.ok r →
      (∀ k, attempt ≤ k → k < k0 → ∃ e, parseResponse (sched k) = Except.error e) →
      (runReviewGo (schedAgent sched) n rem attempt msg errors lastRaw cb).outcome =
          Except.ok r ∧
      (runReviewGo (schedAgent sched) n rem attempt msg errors lastRaw cb).calls = k0 ∧
      (runReviewGo (schedAgent sched) n rem attempt msg errors lastRaw cb).cbLog.length =
          cb.length + (k0 - attempt) := by
  intro rem
  induction rem with
  | zero =>
      intro attempt msg errors lastRaw cb k0 r h1 hk1 hk2 hsucc hbefore
      exact absurd hk2 (by omega)
  | succ rem ih =>
      intro attempt msg errors lastRaw cb k0 r h1 hk1 hk2 hsucc hbefore
      by_cases heq : attempt = k0
      · subst heq
        have hstep : runReviewGo (schedAgent sched) n (rem + 1) attempt msg errors
            lastRaw cb = ⟨attempt, cb, Except.ok r⟩ := by
          simp only [runReviewGo, schedAgent, hsucc]
        rw [hstep]
        exact ⟨rfl, rfl, by simp⟩
      · obtain ⟨e, he⟩ := hbefore attempt (le_refl _) (by omega)
        have hstep : runReviewGo (schedAgent sched) n (rem + 1) attempt msg errors
            lastRaw cb =
            runReviewGo (schedAgent sched) n rem (attempt + 1)
              (if attempt ≤ n then retryMessage e else msg)
              (errors ++ [attemptErrorEntry attempt e])
              ((rawOfContent (sched attempt)).take 2000)
              (cb ++ [(attempt, e)]) := by
          simp only [runReviewGo, schedAgent, he]
        rw [hstep]
        obtain ⟨ho, hc, hl⟩ :=
          ih (attempt + 1) (if attempt ≤ n then retryMessage e else msg)
            (errors ++ [attemptErrorEntry attempt e])
            ((rawOfContent (sched attempt)).take 2000) (cb ++ [(attempt, e)]) k0 r
            (by omega) (by omega) (by omega) hsucc
            (fun k hka hkb => hbefore k (by omega) hkb)
        refine ⟨ho, hc, ?_⟩
        rw [hl]
        simp
        omega

/-- C3: `run_review` returns the first agent response that parses and
validates, making exactly that many `agent.run` calls; when every attempt
fails it makes exactly `max_retries + 1` calls and raises a
`ReviewParseError` whose `attempts` field is `max_retries + 1`, whose
`last_raw` is the first 2000 characters of the final raw content, and whose
error list has one entry per failed attempt; the validation-error callback
fires exactly once per failed attempt (in attempt order); `max_retries = 0`
is the `n = 0` instance, one single attempt; `None` content and
empty-string content are validation failures. -/
theorem C3_run_review_retry :
    (∀ (sched : Nat → AgentContent) (msg : List Char) (n : Nat),
      (∀ k, 1 ≤ k → k ≤ n + 1 → ∃ e, parseResponse (sched k) = Except.error e) →
      (run_review (schedAgent sched) msg n).calls = n + 1 ∧
      (run_review (schedAgent sched) msg n).cbLog.map Prod.fst =
          List.range' 1 (n + 1) ∧
      ∃ err, (run_review (schedAgent sched) msg n).outcome = Except.error err ∧
        err.attempts = n + 1 ∧ err.errors.length = n + 1 ∧
        err.last_raw = (rawOfContent (sched (n + 1))).take 2000) ∧
    (∀ (sched : Nat → AgentContent) (msg : List Char) (n : Nat) (k0 : Nat)
        (r : GrippyReview),
      1 ≤ k0 → k0 ≤ n + 1 →
      parseResponse (sched k0) = Except.ok r →
      (∀ k, 1 ≤ k → k < k0 → ∃ e, parseResponse (sched k) = Except.error e) →
      (run_review (schedAgent sched) msg n).outcome = Except.ok r ∧
      (run_review (schedAgent sched) msg n).calls = k0 ∧
      (run_review (schedAgent sched) msg n).cbLog.length = k0 - 1) ∧
    parseResponse AgentContent.noneVal = Except.error (pstr "Agent returned None") ∧
    (∀ (s : List Char) (o : Except (List Char) GrippyReview), (pyStrip s).isEmpty →
      parseResponse (AgentContent.strVal s o) =
        Except.error (pstr "Agent returned empty string")) := by
  refine ⟨?_, ?_, rfl, ?_⟩
  · intro sched msg n hfail
    obtain ⟨hcalls, hmap, err, hout, hatt, herrlen, -, hlr⟩ :=
      runReviewGo_all_fail sched n (n + 1) 1 msg [] (pstr "") [] (by omega)
        (fun k hk1 hk2 => hfail k hk1 (by omega))
    unfold run_review
    refine ⟨by rw [hcalls]; omega, by rw [hmap]; simp, err, hout, hatt,
      by rw [herrlen]; simp, ?_⟩
    have hx : 1 + (n + 1) - 1 = n + 1 := by omega
    have h1x := hlr (by omega)
    rw [hx] at h1x
    exact h1x
  · intro sched msg n k0 r h1 hk hsucc hbefore
    obtain ⟨ho, hc, hl⟩ :=
      runReviewGo_first_success sched n (n + 1) 1 msg [] (pstr "") [] k0 r
        (by omega) h1 (by omega) hsucc (fun k hka hkb => hbefore k hka hkb)
    unfold run_review
    exact ⟨ho, hc, by rw [hl]; simp⟩
  · intro s o hs
    simp [parseResponse, hs]

/-- Witness for C3: a fail-fail-succeed schedule returns the third response
with three calls and two callback firings, and an always-failing schedule
with `max_retries = 0` makes one call and raises with one recorded error. -/
theorem C3_run_review_retry_witness :
    ((run_review (schedAgent wSched) (pstr "go") 3).outcome = Except.ok wReview ∧
     (run_review (schedAgent wSched) (pstr "go") 3).calls = 3 ∧
     (run_review (schedAgent wSched) (pstr "go") 3).cbLog.length = 3 - 1) ∧
    ((run_review (schedAgent wSchedFail) (pstr "go") 0).calls = 0 + 1 ∧
     (run_review (schedAgent wSchedFail) (pstr "go") 0).cbLog.map Prod.fst =
         List.range' 1 (0 + 1) ∧
     ∃ err, (run_review (schedAgent wSchedFail) (pstr "go") 0).outcome =
         Except.error err ∧
       err.attempts = 0 + 1 ∧ err.errors.length = 0 + 1 ∧
       err.last_raw = (rawOfContent (wSchedFail (0 + 1))).take 2000) ∧
    parseResponse (AgentContent.strVal (pstr "   ") (Except.ok wReview)) =
      Except.error (pstr "Agent returned empty string") :=
  ⟨C3_run_review_retry.2.1 wSched (pstr "go") 3 3 wReview (by decide) (by decide)
      (by rfl)
      (fun k h1 h2 => by
        interval_cases k
        · exact ⟨pstr "Agent returned None", by rfl⟩
        · exact ⟨pstr "Expecting value", by rfl⟩),
   C3_run_review_retry.1 wSchedFail (pstr "go") 0
      (fun k _ _ => ⟨pstr "Agent returned None", by rfl⟩),
   C3_run_review_retry.2.2.2 (pstr "   ") (Except.ok wReview) (by decide)⟩

/-- C4 counterexample: the review record is not immutable — `GrippyReview`
has no frozen config, so a field assignment on a concrete review raises
nothing and changes the record. -/
theorem C4_review_not_frozen_counterexample :
    pydanticSetAttr grippyReviewFrozen wReview
        (fun g => { g with model := pstr "changed" }) =
      Except.ok { wReview with model := pstr "changed" } ∧
    { wReview with model := pstr "changed" } ≠ wReview := by
  exact ⟨rfl, by decide⟩

/-- C4 amended: `Finding` is frozen — every field assignment on a
constructed Finding raises the schema error and yields no updated record —
while `GrippyReview` is not frozen, so field assignment succeeds and
replaces the field value. -/
theorem C4_finding_frozen_review_mutable :
    (∀ (f : Finding) (upd : Finding → Finding),
      pydanticSetAttr findingFrozen f upd = Except.error (pstr "Instance is frozen")) ∧
    (∀ (g : GrippyReview) (upd : GrippyReview → GrippyReview),
      pydanticSetAttr grippyReviewFrozen g upd = Except.ok (upd g)) :=
  ⟨fun _ _ => rfl, fun _ _ => rfl⟩

/-- C5: the tools' traversal check is a raw string-prefix test on the
canonical paths, so a sibling of the repository root whose name extends the
root's name passes the check even though it is not under the root — the
request is not rejected and the file is read; a plain `..` escape such as
`/etc/passwd` is still rejected. -/
theorem C5_traversal_prefix_bypass :
    traversalCheckPasses (pstr "/repo") (pstr "/repo-evil/secret.txt") = true ∧
    isUnderRoot (pstr "/repo") (pstr "/repo-evil/secret.txt") = false ∧
    traversalCheckPasses (pstr "/repo") (pstr "/etc/passwd") = false := by
  decide

/-! ### C7 infrastructure -/

theorem priorByFp_none_iff (prior : List PriorFinding) (fp : List Char) :
    priorByFp prior fp = none ↔ fp ∉ priorFps prior := by
  induction prior with
  | nil => simp [priorByFp, priorFps]
  | cons p rest ih =>
      simp only [priorFps, List.map_cons, List.mem_cons]
      show (match priorByFp rest fp with
            | some q => some q
            | none => if p.fingerprint = fp then some p else none) = none ↔ _
      cases h : priorByFp rest fp with
      | some q =>
          have h2 : fp ∈ priorFps rest := by
            by_contra hc
            have hn := ih.mpr hc
            rw [h] at hn
            exact Option.noConfusion hn
          constructor
          · intro hq
            exact Option.noConfusion hq
          · intro hn
            exact absurd (Or.inr h2) hn
      | none =>
          by_cases hpf : p.fingerprint = fp
          · rw [if_pos hpf]
            constructor
            · intro hq
              exact Option.noConfusion hq
            · intro hn
              exact absurd (Or.inl hpf.symm) hn
          · rw [if_neg hpf]
            constructor
            · intro _ hor
              rcases hor with he | hin
              · exact hpf he.symm
              · exact (ih.mp h) hin
            · intro _
              rfl

theorem priorByFp_isSome_iff (prior : List PriorFinding) (fp : List Char) :
    (priorByFp prior fp).isSome = true ↔ fp ∈ priorFps prior := by
  rw [Option.isSome_iff_ne_none]
  constructor
  · intro h
    by_contra hc
    exact h ((priorByFp_none_iff prior fp).mpr hc)
  · intro h hn
    exact (priorByFp_none_iff prior fp).mp hn h

theorem resolveFold_spec (prior : List PriorFinding) :
    ∀ (cur : List Finding) (a : List Finding) (b : List PersistingFinding)
      (c : List (List Char)),
      (cur.foldl (resolveStep prior) (a, b, c)).1 =
        a ++ cur.filter (fun f => (priorByFp prior f.fingerprint).isNone) ∧
      persistingFps (cur.foldl (resolveStep prior) (a, b, c)).2.1 =
        persistingFps b ++
          findingFps (cur.filter (fun f => (priorByFp prior f.fingerprint).isSome)) ∧
      (cur.foldl (resolveStep prior) (a, b, c)).2.2 =
        c ++ findingFps (cur.filter (fun f => (priorByFp prior f.fingerprint).isSome)) := by
  intro cur
  induction cur with
  | nil => intro a b c; simp [findingFps, persistingFps]
  | cons f rest ih =>
      intro a b c
      simp only [List.foldl_cons]
      cases hp : priorByFp prior f.fingerprint with
      | some p =>
          have hstep : resolveStep prior (a, b, c) f =
              (a, b ++ [⟨f, p.node_id⟩], c ++ [f.fingerprint]) := by
            simp [resolveStep, hp]
          rw [hstep]
          obtain ⟨h1, h2, h3⟩ := ih a (b ++ [⟨f, p.node_id⟩]) (c ++ [f.fingerprint])
          refine ⟨?_, ?_, ?_⟩
          · rw [h1]
            simp [List.filter_cons, hp]
          · rw [h2]
            simp [persistingFps, findingFps, List.filter_cons, hp]
          · rw [h3]
            simp [findingFps, List.filter_cons, hp]
      | none =>
          have hstep : resolveStep prior (a, b, c) f = (a ++ [f], b, c) := by
            simp [resolveStep, hp]
          rw [hstep]
          obtain ⟨h1, h2, h3⟩ := ih (a ++ [f]) b c
          refine ⟨?_, ?_, ?_⟩
          · rw [h1]
            simp [List.filter_cons, hp]
          · rw [h2]
            simp [persistingFps, findingFps, List.filter_cons, hp]
          · rw [h3]
            simp [findingFps, List.filter_cons, hp]

/-- C7: the resolver's three lists are pairwise disjoint by fingerprint —
new carries the current fingerprints absent from prior, persisting the
current fingerprints present in prior, resolved the prior entries whose
fingerprint no current finding carries — and together they cover every
fingerprint of current and prior. -/
theorem C7_resolver_trichotomy (current : List Finding) (prior : List PriorFinding) :
    (∀ fp, ¬(fp ∈ findingFps (resolve_findings_against_prior current prior).new ∧
        fp ∈ persistingFps (resolve_findings_against_prior current prior).persisting)) ∧
    (∀ fp, ¬(fp ∈ findingFps (resolve_findings_against_prior current prior).new ∧
        fp ∈ priorFps (resolve_findings_against_prior current prior).resolved)) ∧
    (∀ fp, ¬(fp ∈ persistingFps (resolve_findings_against_prior current prior).persisting ∧
        fp ∈ priorFps (resolve_findings_against_prior current prior).resolved)) ∧
    (∀ fp, (fp ∈ findingFps current ∨ fp ∈ priorFps prior) ↔
        (fp ∈ findingFps (resolve_findings_against_prior current prior).new ∨
         fp ∈ persistingFps (resolve_findings_against_prior current prior).persisting ∨
         fp ∈ priorFps (resolve_findings_against_prior current prior).resolved)) := by
  obtain ⟨h1, h2, h3⟩ := resolveFold_spec prior current [] [] []
  have hNew : (resolve_findings_against_prior current prior).new =
      current.filter (fun f => (priorByFp prior f.fingerprint).isNone) := by
    unfold resolve_findings_against_prior
    simpa using h1
  have hPers : persistingFps (resolve_findings_against_prior current prior).persisting =
      findingFps (current.filter (fun f => (priorByFp prior f.fingerprint).isSome)) := by
    unfold resolve_findings_against_prior
    simpa [persistingFps] using h2
  have hRes : (resolve_findings_against_prior current prior).resolved =
      prior.filter (fun p => decide (p.fingerprint ∉
        findingFps (current.filter (fun f => (priorByFp prior f.fingerprint).isSome)))) := by
    unfold resolve_findings_against_prior
    simp only [h3]
    simp
  have mMatch : ∀ fp,
      fp ∈ findingFps (current.filter (fun f => (priorByFp prior f.fingerprint).isSome)) ↔
      (fp ∈ findingFps current ∧ fp ∈ priorFps prior) := by
    intro fp
    unfold findingFps
    simp only [List.mem_map, List.mem_filter]
    constructor
    · rintro ⟨f, ⟨hf, hs⟩, rfl⟩
      exact ⟨⟨f, hf, rfl⟩, (priorByFp_isSome_iff prior f.fingerprint).mp hs⟩
    · rintro ⟨⟨f, hf, rfl⟩, hin⟩
      exact ⟨f, ⟨hf, (priorByFp_isSome_iff prior f.fingerprint).mpr hin⟩, rfl⟩
  have mNew : ∀ fp,
      fp ∈ findingFps (resolve_findings_against_prior current prior).new ↔
      (fp ∈ findingFps current ∧ fp ∉ priorFps prior) := by
    intro fp
    rw [hNew]
    unfold findingFps
    simp only [List.mem_map, List.mem_filter]
    constructor
    · rintro ⟨f, ⟨hf, hs⟩, rfl⟩
      exact ⟨⟨f, hf, rfl⟩,
        (priorByFp_none_iff prior f.fingerprint).mp (Option.isNone_iff_eq_none.mp hs)⟩
    · rintro ⟨⟨f, hf, rfl⟩, hnp⟩
      exact ⟨f, ⟨hf, Option.isNone_iff_eq_none.mpr
        ((priorByFp_none_iff prior f.fingerprint).mpr hnp)⟩, rfl⟩
  have mPers : ∀ fp,
      fp ∈ persistingFps (resolve_findings_against_prior current prior).persisting ↔
      (fp ∈ findingFps current ∧ fp ∈ priorFps prior) := by
    intro fp
    rw [hPers]
    exact mMatch fp
  have mRes : ∀ fp,
      fp ∈ priorFps (resolve_findings_against_prior current prior).resolved ↔
      (fp ∈ priorFps prior ∧ ¬(fp ∈ findingFps current ∧ fp ∈ priorFps prior)) := by
    intro fp
    rw [hRes]
    constructor
    · intro hm
      obtain ⟨p, hpf, rfl⟩ := List.mem_map.mp hm
      obtain ⟨hp, hq⟩ := List.mem_filter.mp hpf
      have hnm := of_decide_eq_true hq
      exact ⟨List.mem_map.mpr ⟨p, hp, rfl⟩,
        fun hc => hnm ((mMatch p.fingerprint).mpr hc)⟩
    · rintro ⟨hp, hnc⟩
      obtain ⟨p, hpm, rfl⟩ := List.mem_map.mp hp
      refine List.mem_map.mpr ⟨p, List.mem_filter.mpr ⟨hpm, decide_eq_true ?_⟩, rfl⟩
      exact fun hm => hnc ((mMatch p.fingerprint).mp hm)
  refine ⟨?_, ?_, ?_, ?_⟩
  · intro fp
    rw [mNew fp, mPers fp]
    tauto
  · intro fp
    rw [mNew fp, mRes fp]
    tauto
  · intro fp
    rw [mPers fp, mRes fp]
    tauto
  · intro fp
    rw [mNew fp, mPers fp, mRes fp]
    tauto

/-! ### C6 infrastructure -/

theorem append_colon_inj {a1 a2 r1 r2 : List Char}
    (h1 : ':' ∉ a1) (h2 : ':' ∉ a2)
    (he : a1 ++ ':' :: r1 = a2 ++ ':' :: r2) : a1 = a2 := by
  induction a1 generalizing a2 with
  | nil =>
      cases a2 with
      | nil => rfl
      | cons c cs =>
          simp only [List.nil_append, List.cons_append, List.cons.injEq] at he
          have hc : c = ':' := he.1.symm
          subst hc
          exact absurd (List.mem_cons_self _ _) h2
  | cons b bs ih =>
      cases a2 with
      | nil =>
          simp only [List.nil_append, List.cons_append, List.cons.injEq] at he
          have hb : b = ':' := he.1
          subst hb
          exact absurd (List.mem_cons_self _ _) h1
      | cons c cs =>
          simp only [List.cons_append, List.cons.injEq] at he
          obtain ⟨hbc, htail⟩ := he
          subst hbc
          have hr := ih (fun hm => h1 (List.mem_cons_of_mem _ hm))
            (fun hm => h2 (List.mem_cons_of_mem _ hm)) htail
          rw [hr]

theorem nodeType_value_colon (t : NodeType) : ':' ∉ t.value := by
  cases t <;> decide

theorem nodeType_value_inj {t1 t2 : NodeType} (h : t1.value = t2.value) : t1 = t2 := by
  cases t1 <;> cases t2 <;> first | rfl | exact absurd h (by decide)

theorem node_id_type_inj {t1 t2 : NodeType} {p1 p2 : List (List Char)}
    (h : node_id t1 p1 = node_id t2 p2) : t1 = t2 :=
  nodeType_value_inj
    (append_colon_inj (nodeType_value_colon t1) (nodeType_value_colon t2) h)

theorem mem_findingNodes_iff (r : GrippyReview) (f : Finding) (nd : GNode) :
    nd ∈ findingNodes r f ↔
      nd = fileNode r f ∨ nd = suggNode r f ∨
      (∃ rid, govTruthy f.governance_rule_id = some rid ∧ nd = ruleNode r rid) ∨
      nd = findingNode r f := by
  cases hg : govTruthy f.governance_rule_id with
  | none => simp [findingNodes, hg]
  | some rid => simp [findingNodes, hg]

theorem mem_rawNodes_iff (r : GrippyReview) (nd : GNode) :
    nd ∈ rawNodes r ↔ nd = reviewNode r ∨ nd = authorNode r ∨
      ∃ f ∈ r.findings, nd ∈ findingNodes r f := by
  constructor
  · intro h
    rcases List.mem_append.mp h with h2 | h2
    · rcases List.mem_cons.mp h2 with rfl | h3
      · exact Or.inl rfl
      · exact Or.inr (Or.inl (List.mem_singleton.mp h3))
    · obtain ⟨l, hl, hnd⟩ := List.mem_flatten.mp h2
      obtain ⟨f, hf, rfl⟩ := List.mem_map.mp hl
      exact Or.inr (Or.inr ⟨f, hf, hnd⟩)
  · rintro (rfl | rfl | ⟨f, hf, hnd⟩)
    · exact List.mem_append.mpr (Or.inl (List.mem_cons_self _ _))
    · exact List.mem_append.mpr
        (Or.inl (List.mem_cons_of_mem _ (List.mem_singleton.mpr rfl)))
    · exact List.mem_append.mpr (Or.inr (List.mem_flatten.mpr
        ⟨findingNodes r f, List.mem_map.mpr ⟨f, hf, rfl⟩, hnd⟩))

theorem raw_id_shape (r : GrippyReview) (nd : GNode) (h : nd ∈ rawNodes r) :
    ∃ parts, nd.id = node_id nd.type parts := by
  rcases (mem_rawNodes_iff r nd).mp h with rfl | rfl | ⟨f, hf, hm⟩
  · exact ⟨[r.timestamp, r.pr.title], rfl⟩
  · exact ⟨[r.pr.author], rfl⟩
  · rcases (mem_findingNodes_iff r f nd).mp hm with rfl | rfl | ⟨rid, hg, rfl⟩ | rfl
    · exact ⟨[f.file], rfl⟩
    · exact ⟨[f.file, intStr f.line_start, f.suggestion], rfl⟩
    · exact ⟨[rid], rfl⟩
    · exact ⟨[f.file, intStr f.line_start, f.title], rfl⟩

theorem raw_source (r : GrippyReview) (nd : GNode) (h : nd ∈ rawNodes r) :
    nd = reviewNode r ∨ nd.source_review_id = some (reviewNodeId r) := by
  rcases (mem_rawNodes_iff r nd).mp h with rfl | rfl | ⟨f, hf, hm⟩
  · exact Or.inl rfl
  · exact Or.inr rfl
  · rcases (mem_findingNodes_iff r f nd).mp hm with rfl | rfl | ⟨rid, hg, rfl⟩ | rfl
    · exact Or.inr rfl
    · exact Or.inr rfl
    · exact Or.inr rfl
    · exact Or.inr rfl

theorem raw_finding_shape (r : GrippyReview) (nd : GNode) (h : nd ∈ rawNodes r)
    (ht : nd.type = NodeType.finding) : ∃ f ∈ r.findings, nd = findingNode r f := by
  rcases (mem_rawNodes_iff r nd).mp h with rfl | rfl | ⟨f, hf, hm⟩
  · simp [reviewNode] at ht
  · simp [authorNode] at ht
  · rcases (mem_findingNodes_iff r f nd).mp hm with rfl | rfl | ⟨rid, hg, rfl⟩ | rfl
    · simp [fileNode] at ht
    · simp [suggNode] at ht
    · simp [ruleNode] at ht
    · exact ⟨f, hf, rfl⟩

theorem raw_type_of_id (r : GrippyReview) {nd1 nd2 : GNode}
    (h1 : nd1 ∈ rawNodes r) (h2 : nd2 ∈ rawNodes r) (he : nd1.id = nd2.id) :
    nd1.type = nd2.type := by
  obtain ⟨p1, e1⟩ := raw_id_shape r nd1 h1
  obtain ⟨p2, e2⟩ := raw_id_shape r nd2 h2
  rw [e1, e2] at he
  exact node_id_type_inj he

theorem dedupById_subset : ∀ (l : List GNode) (m : GNode), m ∈ dedupById l → m ∈ l := by
  intro l
  induction l using dedupById.induct with
  | case1 =>
      intro m hm
      simp [dedupById] at hm
  | case2 nd rest ih =>
      intro m hm
      rw [dedupById] at hm
      rcases List.mem_cons.mp hm with rfl | hm2
      · exact List.mem_cons_self _ _
      · exact List.mem_cons_of_mem _ (List.mem_of_mem_filter (ih m hm2))

theorem dedupById_mem_id : ∀ (l : List GNode) (x : List Char),
    x ∈ l.map GNode.id → ∃ m ∈ dedupById l, m.id = x := by
  intro l
  induction l using dedupById.induct with
  | case1 =>
      intro x hx
      simp at hx
  | case2 nd rest ih =>
      intro x hx
      rw [dedupById]
      by_cases hnx : x = nd.id
      · exact ⟨nd, List.mem_cons_self _ _, hnx.symm⟩
      · have hx2 : x ∈ rest.map GNode.id := by
          simp only [List.map_cons, List.mem_cons] at hx
          rcases hx with h | h
          · exact absurd h hnx
          · exact h
        have hx3 : x ∈ (rest.filter (fun m => !(m.id == nd.id))).map GNode.id := by
          obtain ⟨m, hm, rfl⟩ := List.mem_map.mp hx2
          exact List.mem_map.mpr ⟨m, List.mem_filter.mpr ⟨hm, by simp [hnx]⟩, rfl⟩
        obtain ⟨m, hm, he⟩ := ih x hx3
        exact ⟨m, List.mem_cons_of_mem _ hm, he⟩

theorem filter_notMem_snoc (rest : List GNode) (ids : List (List Char)) (x : List Char) :
    rest.filter (fun m => decide (m.id ∉ ids ++ [x])) =
      (rest.filter (fun m => decide (m.id ∉ ids))).filter (fun m => !(m.id == x)) := by
  have dfneg : ¬(false = true) := by decide
  induction rest with
  | nil => rfl
  | cons m rest ih =>
      by_cases h1 : m.id ∈ ids
      · have ha : (decide (m.id ∉ ids ++ [x])) = false := by simp [h1]
        have hb : (decide (m.id ∉ ids)) = false := by simp [h1]
        simp only [List.filter_cons, ha, hb, if_neg dfneg]
        exact ih
      · by_cases h2 : m.id = x
        · have ha : (decide (m.id ∉ ids ++ [x])) = false := by simp [h2]
          have hb : (decide (m.id ∉ ids)) = true := by simp [h1]
          have hc : (!(m.id == x)) = false := by simp [h2]
          simp only [List.filter_cons, ha, hb, hc, if_neg dfneg, if_true]
          exact ih
        · have ha : (decide (m.id ∉ ids ++ [x])) = true := by simp [h1, h2]
          have hb : (decide (m.id ∉ ids)) = true := by simp [h1]
          have hc : (!(m.id == x)) = true := by simp [h2]
          simp only [List.filter_cons, ha, hb, hc, if_true]
          rw [ih]

theorem foldl_addNode_spec : ∀ (l : List GNode) (ns : List GNode) (ids : List (List Char)),
    (l.foldl addNode (ns, ids)).1 =
      ns ++ dedupById (l.filter (fun m => decide (m.id ∉ ids))) := by
  intro l
  induction l with
  | nil =>
      intro ns ids
      simp [dedupById]
  | cons nd rest ih =>
      intro ns ids
      have dfneg : ¬(false = true) := by decide
      simp only [List.foldl_cons]
      by_cases h : nd.id ∈ ids
      · have hstep : addNode (ns, ids) nd = (ns, ids) := by
          simp only [addNode]
          rw [if_pos h]
        rw [hstep, ih]
        have hf : (decide (nd.id ∉ ids)) = false := by simp [h]
        have hfc : (nd :: rest).filter (fun m => decide (m.id ∉ ids)) =
            rest.filter (fun m => decide (m.id ∉ ids)) := by
          simp only [List.filter_cons, hf, if_neg dfneg]
        rw [hfc]
      · have hstep : addNode (ns, ids) nd = (ns ++ [nd], ids ++ [nd.id]) := by
          simp only [addNode]
          rw [if_neg h]
        rw [hstep, ih]
        have ht : (decide (nd.id ∉ ids)) = true := by simp [h]
        rw [filter_notMem_snoc]
        have hfc : (nd :: rest).filter (fun m => decide (m.id ∉ ids)) =
            nd :: rest.filter (fun m => decide (m.id ∉ ids)) := by
          simp only [List.filter_cons, ht, if_true]
        rw [hfc, dedupById]
        simp

theorem review_nodes_eq_dedup (r : GrippyReview) :
    (review_to_graph r).nodes = dedupById (rawNodes r) := by
  show ((rawNodes r).foldl addNode ([], [])).1 = _
  rw [foldl_addNode_spec]
  have hft : (rawNodes r).filter (fun m => decide (m.id ∉ ([] : List (List Char)))) =
      rawNodes r := by
    apply List.filter_eq_self.mpr
    intro m _
    simp
  rw [hft]
  simp

theorem mem_graph_raw (r : GrippyReview) {nd : GNode}
    (h : nd ∈ (review_to_graph r).nodes) : nd ∈ rawNodes r := by
  rw [review_nodes_eq_dedup] at h
  exact dedupById_subset _ _ h

theorem target_node_exists (r : GrippyReview) {tnd : GNode} (hmem : tnd ∈ rawNodes r) :
    ∃ m ∈ (review_to_graph r).nodes, m.id = tnd.id ∧ m.type = tnd.type := by
  obtain ⟨m, hm, he⟩ := dedupById_mem_id (rawNodes r) tnd.id
    (List.mem_map.mpr ⟨tnd, hmem, rfl⟩)
  have hmr : m ∈ rawNodes r := dedupById_subset _ _ hm
  have hty : m.type = tnd.type := raw_type_of_id r hmr hmem he
  rw [review_nodes_eq_dedup]
  exact ⟨m, hm, he, hty⟩

theorem fileNode_mem_raw (r : GrippyReview) {f : Finding} (hf : f ∈ r.findings) :
    fileNode r f ∈ rawNodes r :=
  (mem_rawNodes_iff r _).mpr (Or.inr (Or.inr ⟨f, hf,
    (mem_findingNodes_iff r f _).mpr (Or.inl rfl)⟩))

theorem suggNode_mem_raw (r : GrippyReview) {f : Finding} (hf : f ∈ r.findings) :
    suggNode r f ∈ rawNodes r :=
  (mem_rawNodes_iff r _).mpr (Or.inr (Or.inr ⟨f, hf,
    (mem_findingNodes_iff r f _).mpr (Or.inr (Or.inl rfl))⟩))

theorem ruleNode_mem_raw (r : GrippyReview) {f : Finding} (hf : f ∈ r.findings)
    {rid : List Char} (hg : govTruthy f.governance_rule_id = some rid) :
    ruleNode r rid ∈ rawNodes r :=
  (mem_rawNodes_iff r _).mpr (Or.inr (Or.inr ⟨f, hf,
    (mem_findingNodes_iff r f _).mpr (Or.inr (Or.inr (Or.inl ⟨rid, hg, rfl⟩)))⟩))

/-- C6 counterexample: with a governance rule id that is present but empty
(`governance_rule_id = some ""`), the FINDING node of the resulting graph has
no VIOLATES edge, refuting the claim's "VIOLATES edge iff the governance-rule
identifier is present" — the source tests Python truthiness, not presence. -/
theorem C6_violates_iff_counterexample :
    wFindingEmptyRule.governance_rule_id.isSome = true ∧
    ∃ nd ∈ (review_to_graph wReviewEmptyRule).nodes,
      nd.type = NodeType.finding ∧ ∀ e ∈ nd.edges, e.type ≠ EdgeType.violates := by
  refine ⟨rfl, ?_⟩
  have hf : wFindingEmptyRule ∈ wReviewEmptyRule.findings := List.mem_singleton.mpr rfl
  have hmemraw : findingNode wReviewEmptyRule wFindingEmptyRule ∈
      rawNodes wReviewEmptyRule :=
    (mem_rawNodes_iff _ _).mpr (Or.inr (Or.inr ⟨_, hf,
      (mem_findingNodes_iff _ _ _).mpr (Or.inr (Or.inr (Or.inr rfl)))⟩))
  obtain ⟨m, hm, hid, hty⟩ := target_node_exists wReviewEmptyRule hmemraw
  have hmr : m ∈ rawNodes wReviewEmptyRule := mem_graph_raw _ hm
  obtain ⟨f2, hf2, rfl⟩ := raw_finding_shape _ m hmr (by rw [hty]; rfl)
  have hfe : f2 = wFindingEmptyRule := List.mem_singleton.mp hf2
  subst hfe
  refine ⟨_, hm, rfl, ?_⟩
  intro e he het
  have hg : govTruthy wFindingEmptyRule.governance_rule_id = none := rfl
  simp [findingNode, findingEdges, hg] at he
  rcases he with rfl | rfl
  · exact absurd het (by decide)
  · exact absurd het (by decide)

/-- C6 amended: in the graph of any review, the first node is the REVIEW
node, whose source review identifier is null and whose identifier is the
graph's review id; every other node carries that id as its source; every
FINDING node arises from a finding of the review and has exactly one
FOUND_IN edge (to a FILE node of the graph) and exactly one FIXED_BY edge
(to a SUGGESTION node of the graph); it has a VIOLATES edge iff its
governance-rule identifier is present AND non-empty, and any such edge leads
to a RULE node of the graph; finding properties carry status "open"; and
the node list is the insertion sequence deduplicated by identifier with
first-insertion order preserved. -/
theorem C6_graph_invariants (r : GrippyReview) :
    (review_to_graph r).nodes.head? = some (reviewNode r) ∧
    (reviewNode r).type = NodeType.review ∧
    (reviewNode r).source_review_id = none ∧
    (review_to_graph r).review_id = (reviewNode r).id ∧
    (∀ nd ∈ (review_to_graph r).nodes, nd ≠ reviewNode r →
      nd.source_review_id = some (review_to_graph r).review_id) ∧
    (∀ nd ∈ (review_to_graph r).nodes, nd.type = NodeType.finding →
      ∃ f ∈ r.findings, nd = findingNode r f ∧
        (nd.edges.filter (fun e => e.type == EdgeType.found_in)).length = 1 ∧
        (nd.edges.filter (fun e => e.type == EdgeType.fixed_by)).length = 1 ∧
        (∀ e ∈ nd.edges, e.type = EdgeType.found_in →
          e.target_type = NodeType.file ∧
          ∃ m ∈ (review_to_graph r).nodes, m.id = e.target_id ∧
            m.type = NodeType.file) ∧
        (∀ e ∈ nd.edges, e.type = EdgeType.fixed_by →
          e.target_type = NodeType.suggestion ∧
          ∃ m ∈ (review_to_graph r).nodes, m.id = e.target_id ∧
            m.type = NodeType.suggestion) ∧
        ((∃ e ∈ nd.edges, e.type = EdgeType.violates) ↔
          govTruthy f.governance_rule_id ≠ none) ∧
        (∀ e ∈ nd.edges, e.type = EdgeType.violates →
          e.target_type = NodeType.rule ∧
          ∃ m ∈ (review_to_graph r).nodes, m.id = e.target_id ∧
            m.type = NodeType.rule) ∧
        (pstr "status", PropVal.s (pstr "open")) ∈ nd.properties) ∧
    (review_to_graph r).nodes = dedupById (rawNodes r) := by
  refine ⟨?_, rfl, rfl, rfl, ?_, ?_, review_nodes_eq_dedup r⟩
  · rw [review_nodes_eq_dedup]
    show (dedupById (reviewNode r ::
      (authorNode r :: (r.findings.map (findingNodes r)).flatten))).head? = _
    rw [dedupById]
    rfl
  · intro nd hnd hne
    rcases raw_source r nd (mem_graph_raw r hnd) with rfl | hs
    · exact absurd rfl hne
    · exact hs
  · intro nd hnd ht
    obtain ⟨f, hf, rfl⟩ := raw_finding_shape r nd (mem_graph_raw r hnd) ht
    refine ⟨f, hf, rfl, ?_⟩
    cases hg : govTruthy f.governance_rule_id with
    | none =>
        refine ⟨?_, ?_, ?_, ?_, ?_, ?_, ?_⟩
        · simp [findingNode, findingEdges, hg]
        · simp [findingNode, findingEdges, hg]
        · intro e he het
          simp [findingNode, findingEdges, hg] at he
          rcases he with rfl | rfl
          · exact ⟨rfl, target_node_exists r (fileNode_mem_raw r hf)⟩
          · simp at het
        · intro e he het
          simp [findingNode, findingEdges, hg] at he
          rcases he with rfl | rfl
          · simp at het
          · exact ⟨rfl, target_node_exists r (suggNode_mem_raw r hf)⟩
        · constructor
          · rintro ⟨e, he, het⟩
            simp [findingNode, findingEdges, hg] at he
            rcases he with rfl | rfl
            · simp at het
            · simp at het
          · intro hne
            exact absurd rfl hne
        · intro e he het
          simp [findingNode, findingEdges, hg] at he
          rcases he with rfl | rfl
          · simp at het
          · simp at het
        · simp [findingNode]
    | some rid =>
        refine ⟨?_, ?_, ?_, ?_, ?_, ?_, ?_⟩
        · simp [findingNode, findingEdges, hg]
        · simp [findingNode, findingEdges, hg]
        · intro e he het
          simp [findingNode, findingEdges, hg] at he
          rcases he with rfl | rfl | rfl
          · exact ⟨rfl, target_node_exists r (fileNode_mem_raw r hf)⟩
          · simp at het
          · simp at het
        · intro e he het
          simp [findingNode, findingEdges, hg] at he
          rcases he with rfl | rfl | rfl
          · simp at het
          · exact ⟨rfl, target_node_exists r (suggNode_mem_raw r hf)⟩
          · simp at het
        · constructor
          · intro _
            simp [hg]
          · intro _
            refine ⟨⟨.violates, node_id .rule [rid], .rule, []⟩, ?_, rfl⟩
            simp [findingNode, findingEdges, hg]
        · intro e he het
          simp [findingNode, findingEdges, hg] at he
          rcases he with rfl | rfl | rfl
          · simp at het
          · simp at het
          · exact ⟨rfl, target_node_exists r (ruleNode_mem_raw r hf hg)⟩
        · simp [findingNode]

/-! ### C8: idempotent edge persistence -/

lemma any_of_mem_subset {α : Type} {p : α → Bool} {l l' : List α}
    (hsub : ∀ r ∈ l, r ∈ l') (h : l.any p = true) : l'.any p = true := by
  rcases List.any_eq_true.mp h with ⟨x, hx, hpx⟩
  exact List.any_eq_true.mpr ⟨x, hsub x hx, hpx⟩

lemma insertEdgeIgnore_subset {es : List EdgeRow} {row r : EdgeRow} (h : r ∈ es) :
    r ∈ insertEdgeIgnore es row := by
  unfold insertEdgeIgnore
  split
  · exact h
  · exact List.mem_append_left _ h

lemma insertEdgeIgnore_conflict (es : List EdgeRow) (row : EdgeRow) :
    (insertEdgeIgnore es row).any (edgeConflict row) = true := by
  unfold insertEdgeIgnore
  split
  · assumption
  · simp [List.any_append, edgeConflict]

lemma insertEdgeIgnore_noop {es : List EdgeRow} {row : EdgeRow}
    (h : es.any (edgeConflict row) = true) : insertEdgeIgnore es row = es := by
  unfold insertEdgeIgnore
  rw [if_pos h]

lemma insertNodeMetaIgnore_subset {ms : List NodeMetaRow} {row r : NodeMetaRow}
    (h : r ∈ ms) : r ∈ insertNodeMetaIgnore ms row := by
  unfold insertNodeMetaIgnore
  split
  · exact h
  · exact List.mem_append_left _ h

lemma insertNodeMetaIgnore_conflict (ms : List NodeMetaRow) (row : NodeMetaRow) :
    (insertNodeMetaIgnore ms row).any (metaConflict row) = true := by
  unfold insertNodeMetaIgnore
  split
  · assumption
  · simp [List.any_append, metaConflict]

lemma insertNodeMetaIgnore_noop {ms : List NodeMetaRow} {row : NodeMetaRow}
    (h : ms.any (metaConflict row) = true) : insertNodeMetaIgnore ms row = ms := by
  unfold insertNodeMetaIgnore
  rw [if_pos h]

lemma insertRows_subset {r : EdgeRow} :
    ∀ (rows es : List EdgeRow), r ∈ es → r ∈ insertRows es rows := by
  intro rows
  induction rows with
  | nil => intro es h; exact h
  | cons row rest ih =>
      intro es h
      exact ih (insertEdgeIgnore es row) (insertEdgeIgnore_subset h)

lemma insertRows_any_mono {p : EdgeRow → Bool} :
    ∀ (rows es : List EdgeRow), es.any p = true → (insertRows es rows).any p = true := by
  intro rows es h
  exact any_of_mem_subset (fun r hr => insertRows_subset rows es hr) h

lemma insertRows_conflict_all :
    ∀ (rows es : List EdgeRow) (row : EdgeRow), row ∈ rows →
      (insertRows es rows).any (edgeConflict row) = true := by
  intro rows
  induction rows with
  | nil => intro es row h; exact absurd h (List.not_mem_nil _)
  | cons r0 rest ih =>
      intro es row h
      rcases List.mem_cons.mp h with h1 | h2
      · subst h1
        exact insertRows_any_mono rest (insertEdgeIgnore es row)
          (insertEdgeIgnore_conflict es row)
      · exact ih (insertEdgeIgnore es r0) row h2

lemma insertRows_noop :
    ∀ (rows es : List EdgeRow),
      (∀ row ∈ rows, es.any (edgeConflict row) = true) → insertRows es rows = es := by
  intro rows
  induction rows with
  | nil => intro es _; rfl
  | cons r0 rest ih =>
      intro es h
      have h0 : insertEdgeIgnore es r0 = es :=
        insertEdgeIgnore_noop (h r0 (List.mem_cons_self _ _))
      show insertRows (insertEdgeIgnore es r0) rest = es
      rw [h0]
      exact ih es (fun row hr => h row (List.mem_cons_of_mem _ hr))

lemma storeFold_edges_subset (sid : List Char) {r : EdgeRow} :
    ∀ (l : List GNode) (db : GraphDB), r ∈ db.edges → r ∈ (storeFold sid db l).edges := by
  intro l
  induction l with
  | nil => intro db h; exact h
  | cons nd rest ih =>
      intro db h
      exact ih (storeStep sid db nd)
        (insertRows_subset (nd.edges.map (edgeRowOf nd)) db.edges h)

lemma storeFold_meta_subset (sid : List Char) {r : NodeMetaRow} :
    ∀ (l : List GNode) (db : GraphDB),
      r ∈ db.node_meta → r ∈ (storeFold sid db l).node_meta := by
  intro l
  induction l with
  | nil => intro db h; exact h
  | cons nd rest ih =>
      intro db h
      exact ih (storeStep sid db nd) (insertNodeMetaIgnore_subset h)

lemma storeFold_edges_any_mono (sid : List Char) {p : EdgeRow → Bool}
    (l : List GNode) (db : GraphDB) (h : db.edges.any p = true) :
    ((storeFold sid db l).edges).any p = true :=
  any_of_mem_subset (fun _ hr => storeFold_edges_subset sid l db hr) h

lemma storeFold_meta_any_mono (sid : List Char) {p : NodeMetaRow → Bool}
    (l : List GNode) (db : GraphDB) (h : db.node_meta.any p = true) :
    ((storeFold sid db l).node_meta).any p = true :=
  any_of_mem_subset (fun _ hr => storeFold_meta_subset sid l db hr) h

lemma storeFold_edge_conflict (sid : List Char) :
    ∀ (l : List GNode) (db : GraphDB) (nd : GNode) (row : EdgeRow),
      nd ∈ l → row ∈ nd.edges.map (edgeRowOf nd) →
      ((storeFold sid db l).edges).any (edgeConflict row) = true := by
  intro l
  induction l with
  | nil => intro db nd row h _; exact absurd h (List.not_mem_nil _)
  | cons n0 rest ih =>
      intro db nd row hmem hrow
      rcases List.mem_cons.mp hmem with h1 | h2
      · subst h1
        have hstep : ((storeStep sid db nd).edges).any (edgeConflict row) = true :=
          insertRows_conflict_all (nd.edges.map (edgeRowOf nd)) db.edges row hrow
        exact storeFold_edges_any_mono sid rest (storeStep sid db nd) hstep
      · exact ih (storeStep sid db n0) nd row h2 hrow

lemma storeFold_meta_conflict (sid : List Char) :
    ∀ (l : List GNode) (db : GraphDB) (nd : GNode), nd ∈ l →
      ((storeFold sid db l).node_meta).any (metaConflict (nodeMetaRowOf sid nd)) = true := by
  intro l
  induction l with
  | nil => intro db nd h; exact absurd h (List.not_mem_nil _)
  | cons n0 rest ih =>
      intro db nd hmem
      rcases List.mem_cons.mp hmem with h1 | h2
      · subst h1
        have hstep :
            ((storeStep sid db nd).node_meta).any (metaConflict (nodeMetaRowOf sid nd)) = true :=
          insertNodeMetaIgnore_conflict db.node_meta (nodeMetaRowOf sid nd)
        exact storeFold_meta_any_mono sid rest (storeStep sid db nd) hstep
      · exact ih (storeStep sid db n0) nd h2

lemma storeStep_noop {sid : List Char} {db : GraphDB} {nd : GNode}
    (hm : db.node_meta.any (metaConflict (nodeMetaRowOf sid nd)) = true)
    (he : ∀ row ∈ nd.edges.map (edgeRowOf nd), db.edges.any (edgeConflict row) = true) :
    storeStep sid db nd = db := by
  unfold storeStep
  rw [insertNodeMetaIgnore_noop hm, insertRows_noop (nd.edges.map (edgeRowOf nd)) db.edges he]

lemma storeFold_noop (sid : List Char) :
    ∀ (l : List GNode) (db : GraphDB),
      (∀ nd ∈ l, db.node_meta.any (metaConflict (nodeMetaRowOf sid nd)) = true ∧
        ∀ row ∈ nd.edges.map (edgeRowOf nd), db.edges.any (edgeConflict row) = true) →
      storeFold sid db l = db := by
  intro l
  induction l with
  | nil => intro db _; rfl
  | cons nd rest ih =>
      intro db h
      have h0 := h nd (List.mem_cons_self _ _)
      have hstep : storeStep sid db nd = db := storeStep_noop h0.1 h0.2
      show storeFold sid (storeStep sid db nd) rest = db
      rw [hstep]
      exact ih db (fun n hn => h n (List.mem_cons_of_mem _ hn))

/-- C8: persistence is idempotent over the SQLite tables.  Because every
edge insert is `INSERT OR IGNORE` against `UNIQUE(source_id, edge_type,
target_id)` (and every node_meta insert likewise against its primary key),
storing the same `ReviewGraph` a second time is a no-op on the database,
so in particular the edges table has exactly the same row count after two
stores as after one, from any starting database state. -/
theorem C8_store_edges_idempotent (db : GraphDB) (g : ReviewGraph) (sid : List Char) :
    store_review (store_review db g sid) g sid = store_review db g sid ∧
    (store_review (store_review db g sid) g sid).edges.length =
      (store_review db g sid).edges.length := by
  have hid : store_review (store_review db g sid) g sid = store_review db g sid := by
    unfold store_review
    apply storeFold_noop
    intro nd hnd
    constructor
    · exact storeFold_meta_conflict sid g.nodes db nd hnd
    · intro row hrow
      exact storeFold_edge_conflict sid g.nodes db nd row hnd hrow
  exact ⟨hid, by rw [hid]⟩

/-! ### C9: batched posting with 422 fallback -/

lemma chunksByAux_spec {α : Type} (n : Nat) (hn : 0 < n) :
    ∀ (fuel : Nat) (l : List α), l.length ≤ fuel →
      (∀ b ∈ chunksByAux n fuel l, b.length ≤ n) ∧
      (chunksByAux n fuel l).flatten = l := by
  intro fuel
  induction fuel with
  | zero =>
      intro l hl
      have hnil : l = [] := List.length_eq_zero.mp (Nat.le_zero.mp hl)
      subst hnil
      exact ⟨fun b hb => absurd hb (List.not_mem_nil _), rfl⟩
  | succ fuel ih =>
      intro l hl
      cases l with
      | nil => exact ⟨fun b hb => absurd hb (List.not_mem_nil _), rfl⟩
      | cons x xs =>
          have hdrop : ((x :: xs).drop n).length ≤ fuel := by
            simp only [List.length_drop, List.length_cons] at *
            omega
          obtain ⟨ihb, ihf⟩ := ih ((x :: xs).drop n) hdrop
          constructor
          · intro b hb
            rcases List.mem_cons.mp hb with h1 | h2
            · subst h1
              simp only [List.length_take]
              omega
            · exact ihb b h2
          · show ((x :: xs).take n :: chunksByAux n fuel ((x :: xs).drop n)).flatten = x :: xs
            simp only [List.flatten_cons]
            rw [ihf]
            exact List.take_append_drop n (x :: xs)

lemma chunksBy_spec {α : Type} (n : Nat) (hn : 0 < n) (l : List α) :
    (∀ b ∈ chunksBy n l, b.length ≤ n) ∧ (chunksBy n l).flatten = l :=
  chunksByAux_spec n hn l.length l (le_refl _)

lemma postLoop_spec (submit : Nat → SubmitResult)
    (hsub : ∀ k st, submit k = .err st → st = 422) :
    ∀ (pairs : List (List ReviewComment × List Finding)) (i : Nat),
      postLoop submit i pairs = .ok
        (((List.range' i pairs.length).zip pairs).filterMap
           (fun q => if submit q.1 = .ok then some (pstr "COMMENT", q.2.1) else none),
         (((List.range' i pairs.length).zip pairs).filterMap
           (fun q => if submit q.1 = .ok then none else some q.2.2)).flatten) := by
  intro pairs
  induction pairs with
  | nil => intro i; rfl
  | cons p rest ih =>
      intro i
      obtain ⟨batch, fb⟩ := p
      cases hsp : submit i with
      | ok =>
          simp only [postLoop, hsp]
          rw [ih (i + 1)]
          simp [List.range'_succ, hsp, Except.map]
      | err st =>
          have h422 : st = 422 := hsub i st hsp
          subst h422
          simp only [postLoop, hsp]
          rw [ih (i + 1)]
          simp [List.range'_succ, hsp, Except.map]

lemma postLoop_error (submit : Nat → SubmitResult) (st : Int) (hst : ¬st = 422)
    (k0 : Nat) (hk0 : submit k0 = .err st) :
    ∀ (pairs : List (List ReviewComment × List Finding)) (i : Nat),
      (∀ k, i ≤ k → k < k0 → submit k = .ok) → i ≤ k0 → k0 < i + pairs.length →
      postLoop submit i pairs = .error st := by
  intro pairs
  induction pairs with
  | nil =>
      intro i _ hle hlt
      simp only [List.length_nil] at hlt
      omega
  | cons p rest ih =>
      intro i hok hle hlt
      obtain ⟨batch, fb⟩ := p
      rcases Nat.eq_or_lt_of_le hle with heq | hlt2
      · subst heq
        simp only [postLoop, hk0]
        rw [if_neg hst]
      · have hspi : submit i = .ok := hok i (le_refl i) hlt2
        simp only [postLoop, hspi]
        rw [ih (i + 1) (fun k hk1 hk2 => hok k (Nat.le_of_succ_le hk1) hk2) hlt2
          (by simp only [List.length_cons] at hlt; omega)]
        rfl

lemma post_review_model_ok (findings : List Finding) (prior : List PriorFinding)
    (diff : List Char) (submit : Nat → SubmitResult)
    (hsub : ∀ k st, submit k = .err st → st = 422) :
    post_review_model findings prior diff false submit = .ok
      ⟨submittedSpec submit findings diff,
       offDiffFindings findings diff ++ failedSpec submit findings diff,
       resolve_findings_against_prior findings prior⟩ := by
  rw [show post_review_model findings prior diff false submit
      = Except.map (fun p => (⟨p.1, offDiffFindings findings diff ++ p.2,
          resolve_findings_against_prior findings prior⟩ : PostOutcome))
        (postLoop submit 0 (batchPairs findings diff)) from rfl]
  rw [postLoop_spec submit hsub (batchPairs findings diff) 0]
  rfl

lemma post_review_model_error (findings : List Finding) (prior : List PriorFinding)
    (diff : List Char) (submit : Nat → SubmitResult) (k0 : Nat) (st : Int)
    (hk0 : submit k0 = .err st) (hst : ¬st = 422)
    (hok : ∀ k, k < k0 → submit k = .ok)
    (hlt : k0 < (batchPairs findings diff).length) :
    post_review_model findings prior diff false submit = .error st := by
  rw [show post_review_model findings prior diff false submit
      = Except.map (fun p => (⟨p.1, offDiffFindings findings diff ++ p.2,
          resolve_findings_against_prior findings prior⟩ : PostOutcome))
        (postLoop submit 0 (batchPairs findings diff)) from rfl]
  rw [postLoop_error submit st hst k0 hk0 (batchPairs findings diff) 0
    (fun k _ hk2 => hok k hk2) (Nat.zero_le _) (by omega)]
  rfl

/-- C9: `post_review` partitions the inline-eligible findings' comments into
batches of at most `_REVIEW_BATCH_SIZE = 25` whose concatenation is exactly
the inline comment list; for a non-fork PR, when no batch submission fails
with a status other than 422, the call succeeds, each submitted batch is a
single review with event `"COMMENT"`, and exactly the 422-failed batches'
finding slices are appended to the off-diff list handed to the summary,
while the remaining batches are still submitted; an HTTP error other than
422 (all earlier batches succeeding) propagates to the caller. -/
theorem C9_post_review_batching (findings : List Finding) (prior : List PriorFinding)
    (diff : List Char) (submit : Nat → SubmitResult) :
    (∀ b ∈ commentBatches findings diff, b.length ≤ REVIEW_BATCH_SIZE) ∧
    (commentBatches findings diff).flatten =
      (inlineFindings findings diff).map build_review_comment ∧
    ((∀ k st, submit k = .err st → st = 422) →
      post_review_model findings prior diff false submit = .ok
        ⟨submittedSpec submit findings diff,
         offDiffFindings findings diff ++ failedSpec submit findings diff,
         resolve_findings_against_prior findings prior⟩ ∧
      ∀ s ∈ submittedSpec submit findings diff, s.1 = pstr "COMMENT") ∧
    (∀ k0 st, submit k0 = .err st → ¬st = 422 → (∀ k, k < k0 → submit k = .ok) →
      k0 < (batchPairs findings diff).length →
      post_review_model findings prior diff false submit = .error st) := by
  refine ⟨(chunksBy_spec REVIEW_BATCH_SIZE (by decide) _).1,
    (chunksBy_spec REVIEW_BATCH_SIZE (by decide) _).2, ?_, ?_⟩
  · intro hsub
    refine ⟨post_review_model_ok findings prior diff submit hsub, ?_⟩
    intro s hs
    rcases List.mem_filterMap.mp hs with ⟨q, _, hmap⟩
    by_cases hqk : submit q.1 = .ok
    · rw [if_pos hqk] at hmap
      cases Option.some.inj hmap
      rfl
    · rw [if_neg hqk] at hmap
      exact Option.noConfusion hmap
  · intro k0 st hk0 hst hok hlt
    exact post_review_model_error findings prior diff submit k0 st hk0 hst hok hlt

set_option maxRecDepth 100000

theorem C9_post_review_batching_witness :
    post_review_model [wFindingInline] [] wDiff false wSubmitErr = .error 500 ∧
    post_review_model [wFindingInline] [] wDiff false wSubmitOk = .ok
      ⟨submittedSpec wSubmitOk [wFindingInline] wDiff,
       offDiffFindings [wFindingInline] wDiff ++ failedSpec wSubmitOk [wFindingInline] wDiff,
       resolve_findings_against_prior [wFindingInline] []⟩ := by
  constructor
  · exact (C9_post_review_batching [wFindingInline] [] wDiff wSubmitErr).2.2.2 0 500 rfl
      (by decide) (fun k hk => absurd hk (Nat.not_lt_zero k)) (by decide)
  · exact ((C9_post_review_batching [wFindingInline] [] wDiff wSubmitOk).2.2.1
      (fun k st h => SubmitResult.noConfusion h)).1

/-- C10: review.py `main` constructs `GrippyStore` with the keyword
`embed_fn`, but `GrippyStore.__init__` accepts only the required
keyword-only parameters `graph_db_path`, `lance_dir`, `embedder`; the call
therefore raises `TypeError` on every invocation, so the graph-persistence
stage never stores anything, always logs the caught exception as a
`::warning::`, and the review comment is still posted afterwards. -/
theorem C10_persistence_stage_always_fails :
    pyCallRaisesTypeError grippyStoreInitKwOnlyParams mainPersistCallKwargs = true ∧
    ∀ s, (mainPersistAndPost s).persisted = false ∧
      (mainPersistAndPost s).warned = true ∧
      (mainPersistAndPost s).commentPosted = true := by
  have hc : pyCallRaisesTypeError grippyStoreInitKwOnlyParams mainPersistCallKwargs = true := by
    decide
  refine ⟨hc, fun s => ?_⟩
  simp [mainPersistAndPost, hc]

theorem C7_resolver_trichotomy_witness :
    ¬(pstr "beefcafe0123" ∈
        findingFps (resolve_findings_against_prior [wFinding1] [wPrior1]).new ∧
      pstr "beefcafe0123" ∈
        persistingFps (resolve_findings_against_prior [wFinding1] [wPrior1]).persisting) ∧
    ((pstr "beefcafe0123" ∈ findingFps [wFinding1] ∨
        pstr "beefcafe0123" ∈ priorFps [wPrior1]) ↔
      (pstr "beefcafe0123" ∈
          findingFps (resolve_findings_against_prior [wFinding1] [wPrior1]).new ∨
       pstr "beefcafe0123" ∈
          persistingFps (resolve_findings_against_prior [wFinding1] [wPrior1]).persisting ∨
       pstr "beefcafe0123" ∈
          priorFps (resolve_findings_against_prior [wFinding1] [wPrior1]).resolved)) :=
  ⟨(C7_resolver_trichotomy [wFinding1] [wPrior1]).1 (pstr "beefcafe0123"),
   (C7_resolver_trichotomy [wFinding1] [wPrior1]).2.2.2 (pstr "beefcafe0123")⟩

theorem C6_graph_invariants_witness :
    (review_to_graph wReview).nodes.head? = some (reviewNode wReview) ∧
    (authorNode wReview).source_review_id = some (review_to_graph wReview).review_id := by
  refine ⟨(C6_graph_invariants wReview).1, ?_⟩
  exact (C6_graph_invariants wReview).2.2.2.2.1 (authorNode wReview) (by decide) (by decide)
